import Mathlib

/-!
Cyber Learning Quiz (`cyber/scripts/Quiz/main.go`): a shallow embedding

The program is a menu-driven command-line quiz trainer.  Its state is three
package variables (`currentUser`, `quizData`, `adminConfig`), three JSON files
(`users.json`, `questions.json`, `admin.json`), the standard input and the
wall clock.  The embedding threads all of this through a `World` value.

Modelling conventions

* A Go `string` is a Lean `String`; the `strings` helpers work on the list of
  runes.  `strings.ToLower` maps `unicode.ToLower` over the runes; the Unicode
  case tables behind `unicode.ToLower` are a parameter (`CaseTable`), and every
  statement about lower-casing holds for every case table.
* Go `int` is `Int`; the decrement of a scanned number, the only place where a
  value read from the terminal can leave the 64-bit range, wraps explicitly.
* A Go map is a list of bindings, with a separate `nil` value; a lookup takes the
  first binding of a key and an assignment leaves exactly one.  The order in which
  `range` visits a map is left to a `RangeOrder`.
* JSON encoding followed by decoding is the identity on the data of the model,
  so a file is modelled by the value last written to it.
* A run-time panic (index out of range, nil dereference, assignment to an
  entry of a nil map) and running out of fuel are `none`.
* Printing is reduced to a log of `Event`s.
-/

set_option linter.dupNamespace false

namespace Quiz

/-! ## Strings -/

/-- The runes for which Go's `unicode.IsSpace` holds. -/
def isSpace (c : Char) : Bool :=
  c = '\t' || c = '\n' || c.toNat = 0x0B || c.toNat = 0x0C || c = '\r' || c = ' ' ||
  c.toNat = 0x85 || c.toNat = 0xA0 || c.toNat = 0x1680 ||
  (0x2000 ≤ c.toNat && c.toNat ≤ 0x200A) ||
  c.toNat = 0x2028 || c.toNat = 0x2029 || c.toNat = 0x202F || c.toNat = 0x205F ||
  c.toNat = 0x3000

/-- Go's `strings.TrimSpace`: drop the leading and the trailing white space. -/
def TrimSpace (s : String) : String :=
  String.mk ((s.data.dropWhile isSpace).reverse.dropWhile isSpace).reverse

/-- The rune mapping `unicode.ToLower`.  Its Unicode case tables are not part of
    the program text, so the mapping is a parameter of the model.  Two facts about
    it are kept: on the ASCII runes Go does not consult the tables (`A`..`Z` are
    shifted to `a`..`z`, every other ASCII rune is returned as it is), and the space
    is the lower case of no other rune. -/
structure CaseTable where
  lower : Char → Char
  ascii : ∀ c : Char, c.toNat < 128 → lower c = Char.toLower c
  space : ∀ c : Char, lower c = ' ' → c = ' '

/-- The case table of the Basic Latin and Latin-1 Supplement blocks, used by the
    worked examples: `A`..`Z` and `À`..`Þ` (without the sign `×`) are shifted by 32,
    every other rune is returned as it is. -/
def latin1 : CaseTable where
  lower := fun c =>
    if 0xC0 ≤ c.toNat ∧ c.toNat ≤ 0xDE ∧ c.toNat ≠ 0xD7 then Char.ofNat (c.toNat + 32)
    else Char.toLower c
  ascii := by
    intro c h
    have : ¬ (0xC0 ≤ c.toNat ∧ c.toNat ≤ 0xDE ∧ c.toNat ≠ 0xD7) := by omega
    simp only [this, if_false]
  space := by
    intro c
    simp only
    split
    · rename_i h
      obtain ⟨h1, h2, -⟩ := h
      generalize c.toNat = n at h1 h2
      interval_cases n <;> exact fun e => absurd e (by decide)
    · unfold Char.toLower
      simp only
      split
      · rename_i h
        obtain ⟨h65, h90⟩ := h
        generalize c.toNat = n at h65 h90
        interval_cases n <;> exact fun e => absurd e (by decide)
      · exact id

/-- Go's `strings.ToLower`: `unicode.ToLower` applied to every rune. -/
def ToLower (τ : CaseTable) (s : String) : String :=
  String.mk (s.data.map τ.lower)

/-- Go's `strings.ReplaceAll(s, " ", "")`: every space character is removed. -/
def removeSpaces (s : String) : String :=
  String.mk (s.data.filter (fun c => c != ' '))

/-- The value of a decimal digit. -/
def digitValue (c : Char) : Nat := c.toNat - '0'.toNat

/-- The number written by a list of decimal digits, most significant first. -/
def digitsValue (ds : List Char) : Nat :=
  ds.foldl (fun acc c => acc * 10 + digitValue c) 0

/-- The least Go `int` (64 bits). -/
def minInt : Int := -9223372036854775808

/-- The greatest Go `int` (64 bits). -/
def maxInt : Int := 9223372036854775807

/-- Two's-complement wrap-around of an integer into the range of Go's `int`. -/
def wrapInt (i : Int) : Int :=
  (i + 9223372036854775808) % 18446744073709551616 - 9223372036854775808

/-- The optional sign that `%d` accepts: whether it is a minus, and the text after it. -/
def scanSign (cs : List Char) : Bool × List Char :=
  match cs with
  | '+' :: rest => (false, rest)
  | '-' :: rest => (true, rest)
  | _ => (false, cs)

/-- The integer written by a sign and a run of decimal digits. -/
def signedValue (neg : Bool) (ds : List Char) : Int :=
  if neg then -(digitsValue ds : Int) else (digitsValue ds : Int)

/-- What `fmt.Sscanf(s, "%d", &v)` scans: an optional sign followed by the longest
    run of decimal digits (at least one), which must fit in 64 bits; the text
    after the digits is ignored.  `none` when the scan fails. -/
def scanInt (s : String) : Option Int :=
  let signed := scanSign s.data
  let ds := signed.2.takeWhile Char.isDigit
  if ds.isEmpty then none
  else if minInt ≤ signedValue signed.1 ds ∧ signedValue signed.1 ds ≤ maxInt then
    some (signedValue signed.1 ds)
  else none

/-- The variable after `var v int; fmt.Sscanf(s, "%d", &v)`: a failed scan leaves
    the zero value. -/
def Sscanf (s : String) : Int := (scanInt s).getD 0

/-- The text of `fmt.Sprintf("%s%d", base, count)`. -/
def Sprintf_sd (base : String) (count : Nat) : String := base ++ Nat.repr count

/-! ## Go maps -/

/-- A Go `map[string]V`: either `nil` or a list of bindings. -/
inductive GoMap (V : Type) where
  | nil : GoMap V
  | mk (bindings : List (String × V)) : GoMap V
deriving DecidableEq, Repr

namespace GoMap

variable {V : Type}

/-- The result of `make(map[string]V)`. -/
def make : GoMap V := mk []

/-- The comparison `m == nil`. -/
def isNil : GoMap V → Bool
  | nil => true
  | mk _ => false

/-- The bindings of a map (none for the nil map). -/
def bindings : GoMap V → List (String × V)
  | nil => []
  | mk l => l

/-- The comma-ok lookup `v, ok := m[k]`. -/
def get? (m : GoMap V) (k : String) : Option V := m.bindings.lookup k

/-- The lookup `m[k]`, which yields the zero value of `V` for an absent key. -/
def getD (m : GoMap V) (k : String) (zero : V) : V := (m.get? k).getD zero

/-- The assignment `m[k] = v`; it panics on the nil map. -/
def set (m : GoMap V) (k : String) (v : V) : Option (GoMap V) :=
  match m with
  | nil => none
  | mk l => some (mk ((k, v) :: l.filter (fun p => p.1 != k)))

/-- The keys of a map. -/
def keys (m : GoMap V) : List String := m.bindings.map Prod.fst

end GoMap

/-- The order in which a `range` loop visits the keys of a map: Go leaves it
    unspecified, so it is any rearrangement of the keys. -/
structure RangeOrder where
  order : List String → List String
  perm : ∀ l, (order l).Perm l

/-- The keys of a map in the order a `range` loop visits them. -/
def GoMap.range {V : Type} (ρ : RangeOrder) (m : GoMap V) : List String :=
  ρ.order m.keys

/-- The iteration order that follows the list of bindings. -/
def RangeOrder.stored : RangeOrder := ⟨id, fun _ => List.Perm.refl _⟩

/-! ## Data model -/

/-- An instant of `time.Time`, in nanoseconds since the Unix epoch. -/
abbrev Time := Nat

/-- The seconds of `t.Unix()`. -/
def Time.Unix (t : Time) : Nat := t / 1000000000

/-- The struct `Score`. -/
structure Score where
  Correct : Int
  Total : Int
  LastTaken : Time
deriving DecidableEq, Repr

/-- The struct `User`; `Scores` maps a category to a map from module to score. -/
structure User where
  ID : String
  Name : String
  CreatedAt : Time
  Scores : GoMap (GoMap Score)
deriving DecidableEq, Repr

/-- The struct `Question`; `Answer` is the index of the correct option. -/
structure Question where
  ID : String
  Question : String
  Options : List String
  Answer : Int
  Category : String
  Module : String
deriving DecidableEq, Repr

/-- The struct `QuizData`. -/
structure QuizData where
  Questions : List Question
deriving DecidableEq, Repr

/-- The struct `AdminConfig`. -/
structure AdminConfig where
  Password : String
deriving DecidableEq, Repr

/-- What the program prints, reduced to the events the specification talks about. -/
inductive Event where
  | asked (number total : Nat) (q : Question)
  | correct
  | incorrect (answerText : String)
  | quizCompleted (category module : String) (correct total : Int)
  | welcome (userID : String)
  | message (text : String)
deriving DecidableEq, Repr

/-- The package variables, the three files, the terminal input still to be read,
    the readings `time.Now` will return, and the log of what was printed. -/
structure World where
  currentUser : Option User
  quizData : QuizData
  adminConfig : AdminConfig
  usersFile : List User
  questionsFile : QuizData
  adminFile : AdminConfig
  stdin : List String
  clock : List Time
  out : List Event
deriving DecidableEq, Repr

/-- Append an event to the log. -/
def emit (w : World) (e : Event) : World := { w with out := w.out ++ [e] }

/-- The function `readInput`: the next line of the terminal, trimmed; at the end
    of the input `ReadString` returns the empty text (the error is dropped). -/
def readInput (w : World) : String × World :=
  (TrimSpace (w.stdin.headD ""), { w with stdin := w.stdin.tail })

/-- The call `time.Now()`: the next reading of the clock. -/
def timeNow (w : World) : Time × World :=
  (w.clock.headD 0, { w with clock := w.clock.tail })

/-- The function `loadAllUsers`: the user list stored in `users.json` (empty when
    the file is absent). -/
def loadAllUsers (w : World) : List User := w.usersFile

/-- The loop of `saveUser`: overwrite the first stored user with the id of `cur`;
    `none` when no stored user has that id. -/
def replaceFirst (cur : User) : List User → Option (List User)
  | [] => none
  | u :: us =>
    if u.ID = cur.ID then some (cur :: us)
    else (replaceFirst cur us).map (fun r => u :: r)

/-- The function `saveUser`: write the current user over the stored user with the
    same id, or append it, and rewrite `users.json`. -/
def saveUser (w : World) : Option World :=
  match w.currentUser with
  | none => none
  | some cur =>
    let users := loadAllUsers w
    let users :=
      match replaceFirst cur users with
      | some replaced => replaced
      | none => users ++ [cur]
    some { w with usersFile := users }

/-- The inner loop of `generateUserID`: is `userID` the id of a stored user? -/
def idExists (users : List User) (userID : String) : Bool :=
  users.any (fun u => u.ID = userID)

/-- The outer loop of `generateUserID`, from the value `count`, for at most
    `fuel` iterations. -/
def generateUserIDLoop (users : List User) (baseName : String) : Nat → Nat → Option String
  | 0, _ => none
  | fuel + 1, count =>
    let userID := Sprintf_sd baseName count
    if idExists users userID then generateUserIDLoop users baseName fuel (count + 1)
    else some userID

/-- The base of a generated id: `strings.ToLower(strings.ReplaceAll(name, " ", ""))`. -/
def baseName (τ : CaseTable) (name : String) : String := ToLower τ (removeSpaces name)

/-- The function `generateUserID`. -/
def generateUserID (τ : CaseTable) (w : World) (name : String) (fuel : Nat) : Option String :=
  generateUserIDLoop (loadAllUsers w) (baseName τ name) fuel 1

/-- The function `createNewUser`: read a name, generate an id, make the new user
    the current one and store it. -/
def createNewUser (τ : CaseTable) (w : World) (fuel : Nat) : Option World :=
  let (name, w) := readInput w
  match generateUserID τ w name fuel with
  | none => none
  | some userID =>
    let (now, w) := timeNow w
    let user : User := { ID := userID, Name := name, CreatedAt := now, Scores := GoMap.make }
    let w := { w with currentUser := some user }
    match saveUser w with
    | none => none
    | some w =>
      let w := emit w (Event.welcome userID)
      let (_, w) := readInput w
      some w

/-! ## Derived views of the question list -/

/-- The first loop of `getAvailableModules`: record every (category, module) of
    the questions in a map of sets. -/
def collectModules : List Question → GoMap (GoMap Bool) → Option (GoMap (GoMap Bool))
  | [], modules => some modules
  | q :: rest, modules => do
    let modules ←
      if (modules.getD q.Category GoMap.nil).isNil then modules.set q.Category GoMap.make
      else some modules
    let mods ← (modules.getD q.Category GoMap.nil).set q.Module true
    let modules ← modules.set q.Category mods
    collectModules rest modules

/-- The inner loop of the second half of `getAvailableModules`:
    `result[category] = append(result[category], mod)` for every `mod`. -/
def appendModules (category : String) :
    List String → GoMap (List String) → Option (GoMap (List String))
  | [], result => some result
  | mod :: rest, result => do
    let result ← result.set category (result.getD category [] ++ [mod])
    appendModules category rest result

/-- The outer loop of the second half of `getAvailableModules`. -/
def buildResult (ρ : RangeOrder) (modules : GoMap (GoMap Bool)) :
    List String → GoMap (List String) → Option (GoMap (List String))
  | [], result => some result
  | category :: rest, result => do
    let mods := modules.getD category GoMap.nil
    let result ← appendModules category (mods.range ρ) result
    buildResult ρ modules rest result

/-- The function `getAvailableModules`: the modules of every category. -/
def getAvailableModules (ρ : RangeOrder) (w : World) : Option (GoMap (List String)) := do
  let modules ← collectModules w.quizData.Questions GoMap.make
  buildResult ρ modules (modules.range ρ) GoMap.make

/-- The function `getQuestionsByModule`: the questions of a module, in order. -/
def getQuestionsByModule (w : World) (category module : String) : List Question :=
  w.quizData.Questions.filter (fun q => q.Category = category ∧ q.Module = module)

/-- The function `countQuestions`: how many questions a module has. -/
def countQuestions (w : World) (category module : String) : Int :=
  (w.quizData.Questions.countP (fun q => q.Category = category ∧ q.Module = module) : Nat)

/-- The numbered menu that `selectQuizModule` and `removeModule` build: the pairs
    (category, module) numbered from `idx` in the order of the two `range` loops.
    The result is the map `moduleList` and the next free number. -/
def numberModules (ρ : RangeOrder) (modules : GoMap (List String)) :
    List (Int × (String × String)) × Int :=
  (modules.range ρ).foldl
    (fun acc category =>
      (modules.getD category []).foldl
        (fun acc mod => (acc.1 ++ [(acc.2, (category, mod))], acc.2 + 1)) acc)
    ([], 1)

/-! ## Persistence of questions and admin configuration -/

/-- The function `saveQuestions`: rewrite `questions.json`. -/
def saveQuestions (w : World) : World := { w with questionsFile := w.quizData }

/-- The function `saveAdminConfig`: rewrite `admin.json`. -/
def saveAdminConfig (w : World) : World := { w with adminFile := w.adminConfig }

/-! ## Quiz engine -/

/-- The function `saveScore`: store the score of the current user for the module,
    overwriting any earlier one, and save the user. -/
def saveScore (w : World) (category module : String) (correct total : Int) : Option World :=
  match w.currentUser with
  | none => none
  | some cur => do
    let scores := if cur.Scores.isNil then GoMap.make else cur.Scores
    let scores ←
      if (scores.getD category GoMap.nil).isNil then scores.set category GoMap.make
      else some scores
    let (now, w) := timeNow w
    let mods ← (scores.getD category GoMap.nil).set module
      { Correct := correct, Total := total, LastTaken := now }
    let scores ← scores.set category mods
    saveUser { w with currentUser := some { cur with Scores := scores } }

/-- The indexing `xs[i]`, which panics when `i` is out of range. -/
def index (xs : List String) (i : Int) : Option String :=
  if 0 ≤ i ∧ i < (xs.length : Int) then xs.get? i.toNat else none

/-- The loop of `takeQuiz` over the questions still to ask; `i` is the loop index
    and `correct` the running tally. -/
def askQuestions (total : Nat) : List Question → Nat → Int → World → Option (Int × World)
  | [], _, correct, w => some (correct, w)
  | q :: rest, i, correct, w =>
    let w := emit w (Event.asked (i + 1) total q)
    let (line, w) := readInput w
    let answer := wrapInt (Sscanf line - 1)
    let step : Option (Int × World) :=
      if answer = q.Answer then some (correct + 1, emit w Event.correct)
      else
        match index q.Options q.Answer with
        | none => none
        | some text => some (correct, emit w (Event.incorrect text))
    match step with
    | none => none
    | some (correct, w) =>
      let (_, w) := readInput w
      askQuestions total rest (i + 1) correct w

/-- The function `takeQuiz`. -/
def takeQuiz (w : World) (category module : String) : Option World :=
  let questions := getQuestionsByModule w category module
  if questions.length = 0 then
    let w := emit w (Event.message "No questions available for this module.")
    let (_, w) := readInput w
    some w
  else
    let total := questions.length
    match askQuestions total questions 0 0 w with
    | none => none
    | some (correct, w) =>
      match saveScore w category module correct total with
      | none => none
      | some w =>
        let w := emit w (Event.quizCompleted category module correct total)
        let (_, w) := readInput w
        some w

/-- The function `selectQuizModule`. -/
def selectQuizModule (ρ : RangeOrder) (w : World) : Option World :=
  match getAvailableModules ρ w with
  | none => none
  | some modules =>
    if modules.bindings.length = 0 then
      let w := emit w (Event.message "No quiz modules available.")
      let (_, w) := readInput w
      some w
    else
      let (moduleList, idx) := numberModules ρ modules
      let (line, w) := readInput w
      let choice := Sscanf line
      if choice = idx then some w
      else
        match moduleList.lookup choice with
        | some mod => takeQuiz w mod.1 mod.2
        | none =>
          let w := emit w (Event.message "Invalid choice.")
          let (_, w) := readInput w
          some w

/-- The function `viewScores`: it only prints. -/
def viewScores (w : World) : Option World :=
  match w.currentUser with
  | none => none
  | some _ =>
    let w := emit w (Event.message "Your Scores")
    let (_, w) := readInput w
    some w

/-! ## Admin console -/

/-- The function `addNewQuestion`. -/
def addNewQuestion (w : World) : World :=
  let (category, w) := readInput w
  let (module, w) := readInput w
  let (question, w) := readInput w
  let (option1, w) := readInput w
  let (option2, w) := readInput w
  let (option3, w) := readInput w
  let (option4, w) := readInput w
  let options := [option1, option2, option3, option4]
  let (line, w) := readInput w
  let answer := wrapInt (Sscanf line - 1)
  if answer < 0 ∨ answer > 3 then
    let w := emit w (Event.message "Invalid answer number.")
    let (_, w) := readInput w
    w
  else
    let (now, w) := timeNow w
    let newQuestion : Question :=
      { ID := "q" ++ Nat.repr now.Unix, Question := question, Options := options,
        Answer := answer, Category := category, Module := module }
    let w := { w with quizData := { Questions := w.quizData.Questions ++ [newQuestion] } }
    let w := saveQuestions w
    let w := emit w (Event.message "Question added successfully!")
    let (_, w) := readInput w
    w

/-- The function `removeQuestion`. -/
def removeQuestion (w : World) : World :=
  if w.quizData.Questions.length = 0 then
    let w := emit w (Event.message "No questions available to remove.")
    let (_, w) := readInput w
    w
  else
    let (line, w) := readInput w
    let choice := Sscanf line
    if choice = 0 then w
    else if choice < 1 ∨ choice > (w.quizData.Questions.length : Int) then
      let w := emit w (Event.message "Invalid choice.")
      let (_, w) := readInput w
      w
    else
      let questions := w.quizData.Questions
      let w := { w with quizData :=
        { Questions := questions.take (choice - 1).toNat ++ questions.drop choice.toNat } }
      let w := saveQuestions w
      let w := emit w (Event.message "Question removed successfully!")
      let (_, w) := readInput w
      w

/-- The function `addNewModule`: it stores nothing of its own. -/
def addNewModule (τ : CaseTable) (w : World) : World :=
  let (_, w) := readInput w
  let (_, w) := readInput w
  let (line, w) := readInput w
  if ToLower τ line = "y" then addNewQuestion w
  else
    let (_, w) := readInput w
    w

/-- The function `removeModule`. -/
def removeModule (τ : CaseTable) (ρ : RangeOrder) (w : World) : Option World :=
  match getAvailableModules ρ w with
  | none => none
  | some modules =>
    if modules.bindings.length = 0 then
      let w := emit w (Event.message "No modules available to remove.")
      let (_, w) := readInput w
      some w
    else
      let (moduleList, _) := numberModules ρ modules
      let (line, w) := readInput w
      let choice := Sscanf line
      if choice = 0 then some w
      else
        let w :=
          match moduleList.lookup choice with
          | some mod =>
            let (confirm, w) := readInput w
            if ToLower τ confirm = "yes" then
              let newQuestions := w.quizData.Questions.filter
                (fun q => !(q.Category = mod.1 ∧ q.Module = mod.2))
              let w := { w with quizData := { Questions := newQuestions } }
              let w := saveQuestions w
              emit w (Event.message "Module removed successfully!")
            else emit w (Event.message "Cancelled.")
          | none => emit w (Event.message "Invalid choice.")
        let (_, w) := readInput w
        some w

/-- The function `manageUsers`. -/
def manageUsers (w : World) : World :=
  let users := loadAllUsers w
  if users.length = 0 then
    let w := emit w (Event.message "No users found.")
    let (_, w) := readInput w
    w
  else
    let (choice, w) := readInput w
    let w :=
      if choice = "1" then
        let (line, w) := readInput w
        let userNum := wrapInt (Sscanf line - 1)
        if userNum ≥ 0 ∧ userNum < (users.length : Int) then
          let (confirm, w) := readInput w
          if confirm = "DELETE" then
            let users := users.take userNum.toNat ++ users.drop (userNum + 1).toNat
            let w := { w with usersFile := users }
            emit w (Event.message "User deleted successfully!")
          else emit w (Event.message "Cancelled.")
        else w
      else w
    let (_, w) := readInput w
    w

/-- The function `listAllQuestions`: it only prints. -/
def listAllQuestions (ρ : RangeOrder) (w : World) : Option World :=
  match getAvailableModules ρ w with
  | none => none
  | some _ =>
    let w := emit w (Event.message "All Questions")
    let (_, w) := readInput w
    some w

/-- The function `changeAdminPassword`. -/
def changeAdminPassword (w : World) : World :=
  let (current, w) := readInput w
  if current ≠ w.adminConfig.Password then
    let w := emit w (Event.message "Incorrect password!")
    let (_, w) := readInput w
    w
  else
    let (newPass, w) := readInput w
    let (confirmPass, w) := readInput w
    if newPass ≠ confirmPass then
      let w := emit w (Event.message "Passwords do not match!")
      let (_, w) := readInput w
      w
    else
      let w := { w with adminConfig := { Password := newPass } }
      let w := saveAdminConfig w
      let w := emit w (Event.message "Admin password changed successfully!")
      let (_, w) := readInput w
      w

/-- The menu loop of `adminPanel`, for at most `fuel` rounds. -/
def adminMenu (τ : CaseTable) (ρ : RangeOrder) : Nat → World → Option World
  | 0, _ => none
  | fuel + 1, w =>
    let (choice, w) := readInput w
    if choice = "1" then adminMenu τ ρ fuel (addNewQuestion w)
    else if choice = "2" then adminMenu τ ρ fuel (removeQuestion w)
    else if choice = "3" then adminMenu τ ρ fuel (addNewModule τ w)
    else if choice = "4" then (removeModule τ ρ w).bind (adminMenu τ ρ fuel)
    else if choice = "5" then adminMenu τ ρ fuel (manageUsers w)
    else if choice = "6" then (listAllQuestions ρ w).bind (adminMenu τ ρ fuel)
    else if choice = "7" then adminMenu τ ρ fuel (changeAdminPassword w)
    else if choice = "8" then some w
    else
      let w := emit w (Event.message "Invalid choice. Press Enter to continue...")
      let (_, w) := readInput w
      adminMenu τ ρ fuel w

/-- The function `adminPanel`: the password gate, then the menu loop. -/
def adminPanel (τ : CaseTable) (ρ : RangeOrder) (w : World) (fuel : Nat) : Option World :=
  let (password, w) := readInput w
  if password ≠ w.adminConfig.Password then
    let w := emit w (Event.message "Access Denied! Incorrect password.")
    let (_, w) := readInput w
    some w
  else
    let w := emit w (Event.message "Access Granted!")
    adminMenu τ ρ fuel w

/-! ## Session controller -/

/-- The function `loginExistingUser`. -/
def loginExistingUser (τ : CaseTable) (w : World) (fuel : Nat) : Option World :=
  let users := loadAllUsers w
  if users.length = 0 then
    let w := emit w (Event.message "No existing users found. Creating new user...")
    createNewUser τ w fuel
  else
    let (choice, w) := readInput w
    let userIndex := wrapInt (Sscanf choice - 1)
    if userIndex ≥ 0 ∧ userIndex < (users.length : Int) then
      match users.get? userIndex.toNat with
      | none => none
      | some user =>
        let w := { w with currentUser := some user }
        let w := emit w (Event.message "Welcome back")
        let (_, w) := readInput w
        some w
    else
      let w := emit w (Event.message "Invalid selection. Creating new user...")
      createNewUser τ w fuel

/-- The function `userLogin`. -/
def userLogin (τ : CaseTable) (w : World) (fuel : Nat) : Option World :=
  let (choice, w) := readInput w
  if choice = "1" then createNewUser τ w fuel
  else if choice = "2" then loginExistingUser τ w fuel
  else
    let w := emit w (Event.message "Invalid choice. Creating new user...")
    createNewUser τ w fuel

/-- How a call of `showMainMenu` ends: it returns, or the process exits with
    code 0. -/
inductive Outcome where
  | returned (w : World)
  | exited (w : World)
deriving DecidableEq, Repr

/-- The function `showMainMenu`. -/
def showMainMenu (τ : CaseTable) (ρ : RangeOrder) (w : World) (fuel : Nat) : Option Outcome :=
  match w.currentUser with
  | none => none
  | some _ =>
    let (choice, w) := readInput w
    if choice = "1" then (selectQuizModule ρ w).map Outcome.returned
    else if choice = "2" then (viewScores w).map Outcome.returned
    else if choice = "3" then (userLogin τ w fuel).map Outcome.returned
    else if choice = "4" then (adminPanel τ ρ w fuel).map Outcome.returned
    else if choice = "5" then
      some (Outcome.exited (emit w (Event.message "Thank you for using Cyber Learning Quiz!")))
    else
      let w := emit w (Event.message "Invalid choice. Press Enter to continue...")
      let (_, w) := readInput w
      some (Outcome.returned w)

/-- The endless loop of `main` around `showMainMenu`, for at most `rounds` rounds. -/
def mainLoop (τ : CaseTable) (ρ : RangeOrder) (fuel : Nat) : Nat → World → Option Outcome
  | 0, w => some (Outcome.returned w)
  | rounds + 1, w =>
    match showMainMenu τ ρ w fuel with
    | none => none
    | some (Outcome.exited w) => some (Outcome.exited w)
    | some (Outcome.returned w) => mainLoop τ ρ fuel rounds w

/-! ## Observations and sample data used by the statements -/

/-- The ids of the stored users, in storage order. -/
def storedIDs (w : World) : List String := (loadAllUsers w).map User.ID

/-- The uniqueness invariant of the user store: no two stored users share an id. -/
def idsDistinct (w : World) : Prop := (storedIDs w).Nodup

instance (w : World) : Decidable (idsDistinct w) := by
  unfold idsDistinct; infer_instance

/-- The id of the current user, if any. -/
def currentID (w : World) : Option String := w.currentUser.map User.ID

/-- A fresh installation: no users, no questions, the default admin password. -/
def emptyWorld : World :=
  { currentUser := none, quizData := { Questions := [] },
    adminConfig := { Password := "admin123" }, usersFile := [],
    questionsFile := { Questions := [] }, adminFile := { Password := "admin123" },
    stdin := [], clock := [], out := [] }

/-- The session of the suffix scenario: register, register, delete a user in
    `manageUsers`, register; `steps` says how many of the four steps are run. -/
def registerDeleteRegister (τ : CaseTable) (start : World) (fuel : Nat) : Nat → Option World
  | 0 => some start
  | 1 => createNewUser τ start fuel
  | 2 => (createNewUser τ start fuel).bind (fun w => createNewUser τ w fuel)
  | 3 => ((createNewUser τ start fuel).bind (fun w => createNewUser τ w fuel)).map manageUsers
  | _ => (((createNewUser τ start fuel).bind (fun w => createNewUser τ w fuel)).map
      manageUsers).bind (fun w => createNewUser τ w fuel)

/-- The terminal input of the suffix scenario: the name Alice twice, the deletion
    of user number 1 confirmed with DELETE, and the name Alice again. -/
def aliceSession : World :=
  { emptyWorld with
    stdin := ["Alice", "", "Alice", "", "1", "1", "DELETE", "", "Alice", ""],
    clock := [1000, 2000, 3000] }

/-- A store with the ids alice1 and alice3 (alice2 is free). -/
def gapStore : World :=
  { emptyWorld with
    usersFile :=
      [{ ID := "alice1", Name := "Alice", CreatedAt := 1, Scores := GoMap.make },
       { ID := "alice3", Name := "Alice", CreatedAt := 3, Scores := GoMap.make }] }

/-- The world in which `u` is the current user. -/
def setCurrentUser (w : World) (u : User) : World := { w with currentUser := some u }

/-- The score map that `saveScore` leaves, in closed form: the binding of the
    category is replaced by one whose binding of the module is the new score. -/
def recordScore (scores : GoMap (GoMap Score)) (category module : String) (s : Score) :
    GoMap (GoMap Score) :=
  GoMap.mk ((category, GoMap.mk ((module, s) ::
      (scores.getD category GoMap.nil).bindings.filter (fun p => p.1 != module))) ::
    scores.bindings.filter (fun p => p.1 != category))

/-- The score a user holds for a module, if any. -/
def lookupScore (u : User) (category module : String) : Option Score :=
  (u.Scores.getD category GoMap.nil).get? module

/-- Any world with an empty user store in which the terminal holds the input of the
    suffix scenario; `e1`..`e4` are typed at the "press Enter" prompts. -/
def aliceInput (w : World) (e1 e2 e3 e4 : String) (rest : List String) : World :=
  { w with
    usersFile := [],
    stdin := "Alice" :: e1 :: "Alice" :: e2 :: "1" :: "1" :: "DELETE" :: e3 :: "Alice" :: e4 :: rest }

/-- The store with ids alice1 and alice3 and an admin who deletes user number 2. -/
def deleteSession : World :=
  { gapStore with stdin := ["1", "2", "DELETE", ""] }

/-- The data-model invariant of a question: `Answer` is an index into `Options`
    (whose length, like every Go slice length, fits in an `int`). -/
def validAnswer (q : Question) : Prop :=
  0 ≤ q.Answer ∧ q.Answer < (q.Options.length : Int) ∧ (q.Options.length : Int) ≤ maxInt

instance (q : Question) : Decidable (validAnswer q) := by
  unfold validAnswer; infer_instance

/-- The number typed as the answer to the next question: the scan of the next line
    of the terminal. -/
def typedNumber (lines : List String) : Int := Sscanf (TrimSpace (lines.headD ""))

/-- The number of questions whose answer index equals the typed number minus one,
    when each question consumes two lines of the terminal (the answer and the
    "press Enter" line). -/
def tally : List Question → List String → Int
  | [], _ => 0
  | q :: rest, lines =>
    (if q.Answer = typedNumber lines - 1 then 1 else 0) + tally rest (lines.drop 2)

/-- The questions the log shows as asked, each with its number, in order. -/
def askedLog : List Event → List (Nat × Question)
  | [] => []
  | Event.asked number _ q :: rest => (number, q) :: askedLog rest
  | _ :: rest => askedLog rest

/-- The world after one question has been asked and answered: the question is shown,
    the answer line read, the verdict `e` shown and the "press Enter" line read. -/
def afterAnswer (w : World) (total i : Nat) (q : Question) (e : Event) : World :=
  (readInput (emit (readInput (emit w (Event.asked (i + 1) total q))).2 e)).2

/-- A question bank holding the single question of the scoring example, options
    A, B, C, D with answer index 1, and a logged-in user. -/
def oneQuestion (answerLine : String) : World :=
  { emptyWorld with
    currentUser := some { ID := "alice1", Name := "Alice", CreatedAt := 1, Scores := GoMap.nil },
    usersFile := [{ ID := "alice1", Name := "Alice", CreatedAt := 1, Scores := GoMap.nil }],
    quizData := { Questions :=
      [{ ID := "q1", Question := "Which one?", Options := ["A", "B", "C", "D"], Answer := 1,
         Category := "Cisco", Module := "CCNA" }] },
    stdin := [answerLine, "", ""],
    clock := [5000] }

/-- A question bank whose single question has an answer index outside its options,
    as a hand-edited `questions.json` can hold. -/
def brokenQuestion : World :=
  { oneQuestion "2" with
    quizData := { Questions :=
      [{ ID := "q1", Question := "Which one?", Options := ["A", "B", "C", "D"], Answer := 7,
         Category := "Cisco", Module := "CCNA" }] } }

/-- A question with six options whose correct answer is the sixth. -/
def sixOptions : Question :=
  { ID := "q6", Question := "Which one?", Options := ["A", "B", "C", "D", "E", "F"],
    Answer := 5, Category := "Cisco", Module := "CCNA" }

/-- The user `cur` once the score of a module has been recorded at time `t`. -/
def withScore (cur : User) (category module : String) (correct total : Int) (t : Time) : User :=
  { cur with Scores := recordScore cur.Scores category module
                        { Correct := correct, Total := total, LastTaken := t } }

/-- The scores a user holds for one (category, module) pair: one per binding. -/
def scoreEntries (u : User) (category module : String) : List Score :=
  ((u.Scores.bindings.filter (fun p => p.1 = category)).map
    (fun p => (p.2.bindings.filter (fun b => b.1 = module)).map Prod.snd)).flatten

/-- A map of maps of scores without the `last_taken` fields: each score is reduced
    to the pair (correct, total). -/
def forgetTimes (scores : GoMap (GoMap Score)) : List (String × List (String × (Int × Int))) :=
  scores.bindings.map
    (fun p => (p.1, p.2.bindings.map (fun b => (b.1, (b.2.Correct, b.2.Total)))))

/-- A logged-in user who already holds scores, about to record another one twice. -/
def scoreSession : World :=
  { emptyWorld with
    currentUser := some
      { ID := "alice1", Name := "Alice", CreatedAt := 1,
        Scores := GoMap.mk
          [("Cisco", GoMap.mk [("CCNA", { Correct := 1, Total := 5, LastTaken := 10 })]),
           ("CompTIA", GoMap.mk [("PenTest+", { Correct := 2, Total := 5, LastTaken := 20 })])] },
    usersFile := [{ ID := "alice1", Name := "Alice", CreatedAt := 1, Scores := GoMap.nil }],
    clock := [7000, 8000] }

/-- The (category, module) pair that the number typed at the menu of `removeModule`
    (and of `selectQuizModule`) selects, if any. -/
def selectedModule (ρ : RangeOrder) (w : World) : Option (String × String) :=
  (getAvailableModules ρ w).bind
    (fun modules => (numberModules ρ modules).1.lookup (Sscanf (readInput w).1))

/-- The line typed at the confirmation prompt of `removeModule`: the second line of
    the terminal, trimmed. -/
def confirmationLine (w : World) : String := (readInput (readInput w).2).1

/-- A question bank with two modules, and an admin who selects module number 1 in
    `removeModule` and answers `confirm` at the confirmation prompt. -/
def removeSession (confirm : String) : World :=
  { emptyWorld with
    quizData := { Questions :=
      [{ ID := "pt1", Question := "First?", Options := ["A", "B", "C", "D"], Answer := 1,
         Category := "CompTIA", Module := "PenTest+" },
       { ID := "ccna1", Question := "Second?", Options := ["A", "B", "C", "D"], Answer := 2,
         Category := "Cisco", Module := "CCNA" },
       { ID := "pt2", Question := "Third?", Options := ["A", "B", "C", "D"], Answer := 0,
         Category := "CompTIA", Module := "PenTest+" }] },
    stdin := ["1", confirm, ""] }

/-- The world in which the question list in memory is `qs`. -/
def setQuestions (w : World) (qs : List Question) : World :=
  { w with quizData := { Questions := qs } }

/-- The number typed at the "user number to delete" prompt of `manageUsers`: the
    scan of the second line of the terminal. -/
def deletionNumber (w : World) : Int := Sscanf (readInput (readInput w).2).1

/-- The line typed at the confirmation prompt of `manageUsers`: the third line of
    the terminal, trimmed. -/
def deletionConfirmation (w : World) : String :=
  (readInput (readInput (readInput w).2).2).1

/-- The store with ids alice1 and alice3 and an admin who asks for the deletion of
    user number 2 and answers `confirm` at the confirmation prompt. -/
def deletionSession (confirm : String) : World :=
  { gapStore with stdin := ["1", "2", confirm, ""] }

/-- An admin who types `typed` at the password prompt of the default installation
    and then leaves the admin menu with choice 8. -/
def gateSession (typed : String) : World :=
  { emptyWorld with stdin := [typed, "8"] }

/-- Every module recorded under a category satisfies `R`, and no recorded set is nil. -/
def ModulesInv (R : String → String → Prop) (modules : GoMap (GoMap Bool)) : Prop :=
  modules.isNil = false ∧
  ∀ c inner, modules.get? c = some inner → inner.isNil = false ∧ ∀ m ∈ inner.keys, R c m

/-- Every module listed under a category satisfies `R`, and the result is not nil. -/
def ResultInv (R : String → String → Prop) (result : GoMap (List String)) : Prop :=
  result.isNil = false ∧ ∀ c mods, result.get? c = some mods → ∀ m ∈ mods, R c m

/-- The line typed at the prompt number `i` (from 0) of an operation: line `i` of the
    terminal, trimmed as `readInput` returns it. -/
def enteredLine (w : World) (i : Nat) : String := TrimSpace ((w.stdin.drop i).headD "")

/-- The number typed at the "correct answer number" prompt of `addNewQuestion`, the
    eighth prompt of the operation. -/
def enteredAnswer (w : World) : Int := Sscanf (enteredLine w 7)

/-- The ids of the questions in memory, in list order. -/
def questionIDs (w : World) : List String := w.quizData.Questions.map Question.ID

/-- The uniqueness invariant of the question list: no two questions share an id. -/
def questionIDsDistinct (w : World) : Prop := (questionIDs w).Nodup

instance (w : World) : Decidable (questionIDsDistinct w) := by
  unfold questionIDsDistinct; infer_instance

/-- An admin who adds a question with answer number `answer`: category, module, text,
    four options, the answer number and the "press Enter" line. -/
def addSession (answer : String) : World :=
  { emptyWorld with
    stdin := ["Cisco", "CCNA", "What is a VLAN?", "A", "B", "C", "D", answer, ""],
    clock := [1700000000100000000] }

/-- An admin who adds two questions while the clock reads two instants of the same
    second (0.1 s and 0.9 s after 1700000000). -/
def sameSecondSession : World :=
  { emptyWorld with
    stdin := ["Cisco", "CCNA", "First?", "A", "B", "C", "D", "1", "",
              "Cisco", "CCNA", "Second?", "A", "B", "C", "D", "2", ""],
    clock := [1700000000100000000, 1700000000900000000] }

/-- A fresh installation where `choice` is typed at the login choice, then the name Bob. -/
def loginSession (choice : String) : World :=
  { emptyWorld with stdin := [choice, "Bob", ""], clock := [1000] }

/-- A logged-in session in which `choice` is typed at a menu, then a "press Enter"
    line, then 5 (the exit of the main menu) or 8 (the way back of the admin menu). -/
def menuSession (choice : String) (leave : String) : World :=
  { emptyWorld with
    currentUser := some { ID := "alice1", Name := "Alice", CreatedAt := 1, Scores := GoMap.nil },
    usersFile := [{ ID := "alice1", Name := "Alice", CreatedAt := 1, Scores := GoMap.nil }],
    stdin := [choice, "", leave] }

/-- The world after a menu has rejected a choice: the choice line is read, the error
    is printed and the "press Enter" line is read. -/
def afterInvalidChoice (w : World) : World :=
  (readInput (emit (readInput w).2
    (Event.message "Invalid choice. Press Enter to continue..."))).2

/-- The question that `addNewQuestion` builds from the lines typed at its prompts and
    the reading of the clock. -/
def enteredQuestion (w : World) : Question :=
  { ID := "q" ++ Nat.repr (Time.Unix (w.clock.headD 0)),
    Question := enteredLine w 2,
    Options := [enteredLine w 3, enteredLine w 4, enteredLine w 5, enteredLine w 6],
    Answer := enteredAnswer w - 1,
    Category := enteredLine w 0,
    Module := enteredLine w 1 }

/-- The map of sets built by the first loop of `getAvailableModules` is well formed:
    it is not nil and neither the categories nor the modules of a category repeat. -/
def ModulesWF (modules : GoMap (GoMap Bool)) : Prop :=
  modules.isNil = false ∧ modules.keys.Nodup ∧
  ∀ c, (modules.getD c GoMap.nil).keys.Nodup

/-- A bank of three questions in two modules, and an admin who types `choice` at the
    question-number prompt of `removeQuestion`. -/
def lastQuestionSession (choice : String) : World :=
  { removeSession "no" with stdin := [choice, ""] }

/-- How many times the result of `getAvailableModules` lists module `m` under
    category `c`, counted over all its bindings. -/
def listings (result : GoMap (List String)) (c m : String) : Nat :=
  ((result.bindings.filter (fun p => p.1 = c)).map (fun p => p.2.count m)).sum

/-! # Theorems -/

/-! ## Decimal rendering is injective -/

theorem digitValue_digitChar (d : Nat) (h : d < 10) : digitValue (Nat.digitChar d) = d := by
  interval_cases d <;> decide

theorem toDigitsCore_append (fuel : Nat) : ∀ (n : Nat) (ds : List Char),
    Nat.toDigitsCore 10 fuel n ds = Nat.toDigitsCore 10 fuel n [] ++ ds := by
  induction fuel with
  | zero => intro n ds; simp [Nat.toDigitsCore]
  | succ fuel ih =>
    intro n ds
    simp only [Nat.toDigitsCore]
    split
    · simp
    · rw [ih (n / 10) (Nat.digitChar (n % 10) :: ds), ih (n / 10) [Nat.digitChar (n % 10)]]
      simp

theorem digitsValue_append_singleton (l : List Char) (c : Char) :
    digitsValue (l ++ [c]) = digitsValue l * 10 + digitValue c := by
  simp [digitsValue, List.foldl_append]

theorem digitsValue_toDigitsCore (fuel : Nat) : ∀ n : Nat, n < fuel →
    digitsValue (Nat.toDigitsCore 10 fuel n []) = n := by
  induction fuel with
  | zero => intro n h; omega
  | succ fuel ih =>
    intro n h
    simp only [Nat.toDigitsCore]
    split
    · have hn : n % 10 = n := by omega
      have hd := digitValue_digitChar (n % 10) (Nat.mod_lt _ (by decide))
      rw [hn] at hd ⊢
      simp [digitsValue, hd]
    · rw [toDigitsCore_append, digitsValue_append_singleton, ih (n / 10) (by omega),
        digitValue_digitChar (n % 10) (Nat.mod_lt _ (by decide))]
      omega

theorem digitsValue_repr (n : Nat) : digitsValue (Nat.repr n).data = n := by
  simp [Nat.repr, Nat.toDigits, List.asString, digitsValue_toDigitsCore (n + 1) n (by omega)]

theorem repr_injective {a b : Nat} (h : Nat.repr a = Nat.repr b) : a = b := by
  have := congrArg (fun s => digitsValue s.data) h
  simpa [digitsValue_repr] using this

theorem Sprintf_sd_injective (base : String) {a b : Nat}
    (h : Sprintf_sd base a = Sprintf_sd base b) : a = b := by
  unfold Sprintf_sd at h
  have h2 := congrArg String.data h
  simp only [String.data_append, List.append_cancel_left_eq] at h2
  exact repr_injective (String.ext h2)

/-! ## Lower-casing and the removal of spaces commute -/

theorem ToLower_removeSpaces (τ : CaseTable) (name : String) :
    ToLower τ (removeSpaces name) = removeSpaces (ToLower τ name) := by
  simp only [ToLower, removeSpaces, List.filter_map]
  congr 2
  apply List.filter_congr
  intro c _
  by_cases h : c = ' '
  · subst h
    have : τ.lower ' ' = ' ' := τ.ascii ' ' (by decide)
    simp [this]
  · have h2 : ¬ τ.lower c = ' ' := fun e => h (τ.space c e)
    simp [bne, h, h2]

/-- On ASCII text every case table lowers as Go's ASCII fast path does, hence as
    the table of the examples. -/
theorem ToLower_ascii (τ : CaseTable) (s : String) (h : ∀ c ∈ s.data, c.toNat < 128) :
    ToLower τ s = ToLower latin1 s := by
  simp only [ToLower]
  congr 1
  apply List.map_congr_left
  intro c hc
  rw [τ.ascii c (h c hc), latin1.ascii c (h c hc)]

/-! ## The search of `generateUserID` -/

theorem idExists_iff (users : List User) (userID : String) :
    idExists users userID = true ↔ ∃ u ∈ users, u.ID = userID := by
  simp [idExists]

theorem exists_free_suffix (users : List User) (base : String) :
    ∃ n, 1 ≤ n ∧ n ≤ users.length + 1 ∧ idExists users (Sprintf_sd base n) = false := by
  by_contra hcon
  push_neg at hcon
  have hnd : ((List.range (users.length + 1)).map (fun k => Sprintf_sd base (k + 1))).Nodup :=
    (List.nodup_range _).map (fun a b h => by simpa using Sprintf_sd_injective base h)
  have hsub : (List.range (users.length + 1)).map (fun k => Sprintf_sd base (k + 1)) ⊆
      users.map User.ID := by
    intro x hx
    obtain ⟨k, hk, rfl⟩ := List.mem_map.1 hx
    have hk2 : k < users.length + 1 := List.mem_range.1 hk
    have := hcon (k + 1) (by omega) (by omega)
    simp only [Bool.not_eq_false] at this
    obtain ⟨u, hu, hid⟩ := (idExists_iff _ _).1 this
    exact List.mem_map.2 ⟨u, hu, hid⟩
  have := (List.subperm_of_subset hnd hsub).length_le
  simp at this

theorem generateUserIDLoop_reaches (users : List User) (base : String) :
    ∀ (d count fuel : Nat),
      (∀ k, count ≤ k → k < count + d → idExists users (Sprintf_sd base k) = true) →
      idExists users (Sprintf_sd base (count + d)) = false →
      d < fuel →
      generateUserIDLoop users base fuel count = some (Sprintf_sd base (count + d)) := by
  intro d
  induction d with
  | zero =>
    intro count fuel _ hfree hfuel
    obtain ⟨f, rfl⟩ : ∃ f, fuel = f + 1 := ⟨fuel - 1, by omega⟩
    simp only [Nat.add_zero] at hfree
    simp [generateUserIDLoop, hfree]
  | succ d ih =>
    intro count fuel htaken hfree hfuel
    obtain ⟨f, rfl⟩ : ∃ f, fuel = f + 1 := ⟨fuel - 1, by omega⟩
    have h0 := htaken count (le_refl _) (by omega)
    simp only [generateUserIDLoop, h0, if_true]
    have := ih (count + 1) f (fun k hk1 hk2 => htaken k (by omega) (by omega))
      (by rw [show count + 1 + d = count + (d + 1) by omega]; exact hfree) (by omega)
    rw [this, show count + 1 + d = count + (d + 1) by omega]

theorem generateUserIDLoop_free (users : List User) (base : String) :
    ∀ (fuel count : Nat) (userID : String),
      generateUserIDLoop users base fuel count = some userID → idExists users userID = false := by
  intro fuel
  induction fuel with
  | zero => intro count userID h; simp [generateUserIDLoop] at h
  | succ fuel ih =>
    intro count userID h
    simp only [generateUserIDLoop] at h
    split at h
    · exact ih _ _ h
    · rename_i hfree
      simp only [Option.some.injEq] at h
      subst h
      simpa using hfree

/-- The search of `generateUserID` ends at the least free positive suffix, which is
    at most the number of stored users plus one. -/
theorem generateUserID_search (τ : CaseTable) (w : World) (name : String) :
    baseName τ name = ToLower τ (removeSpaces name) ∧
    baseName τ name = removeSpaces (ToLower τ name) ∧
    ∃ n : Nat, 1 ≤ n ∧ n ≤ (loadAllUsers w).length + 1 ∧
      (∀ u ∈ loadAllUsers w, u.ID ≠ baseName τ name ++ Nat.repr n) ∧
      (∀ k, 1 ≤ k → k < n → ∃ u ∈ loadAllUsers w, u.ID = baseName τ name ++ Nat.repr k) ∧
      (∀ fuel, n ≤ fuel → generateUserID τ w name fuel = some (baseName τ name ++ Nat.repr n)) ∧
      generateUserID τ w name ((loadAllUsers w).length + 1) = some (baseName τ name ++ Nat.repr n) := by
  refine ⟨rfl, ToLower_removeSpaces τ name, ?_⟩
  have hex : ∃ n, 1 ≤ n ∧ idExists (loadAllUsers w) (Sprintf_sd (baseName τ name) n) = false := by
    obtain ⟨n, h1, _, h3⟩ := exists_free_suffix (loadAllUsers w) (baseName τ name)
    exact ⟨n, h1, h3⟩
  classical
  have hspec := Nat.find_spec hex
  have hmin : ∀ k, 1 ≤ k → k < Nat.find hex →
      idExists (loadAllUsers w) (Sprintf_sd (baseName τ name) k) = true := by
    intro k hk1 hk2
    have := Nat.find_min hex hk2
    simp only [not_and, Bool.not_eq_false] at this
    exact this hk1
  have hle : Nat.find hex ≤ (loadAllUsers w).length + 1 := by
    obtain ⟨n, h1, h2, h3⟩ := exists_free_suffix (loadAllUsers w) (baseName τ name)
    exact (Nat.find_min' hex ⟨h1, h3⟩).trans h2
  have hrun : ∀ fuel, Nat.find hex ≤ fuel →
      generateUserID τ w name fuel = some (baseName τ name ++ Nat.repr (Nat.find hex)) := by
    intro fuel hfuel
    have := generateUserIDLoop_reaches (loadAllUsers w) (baseName τ name) (Nat.find hex - 1) 1 fuel
      (fun k hk1 hk2 => hmin k hk1 (by omega))
      (by rw [show 1 + (Nat.find hex - 1) = Nat.find hex by omega]; exact hspec.2) (by omega)
    rw [show 1 + (Nat.find hex - 1) = Nat.find hex by omega] at this
    exact this
  refine ⟨Nat.find hex, hspec.1, hle, ?_, ?_, hrun, hrun _ hle⟩
  · intro u hu heq
    have h2 := hspec.2
    have : idExists (loadAllUsers w) (Sprintf_sd (baseName τ name) (Nat.find hex)) = true :=
      (idExists_iff _ _).2 ⟨u, hu, heq⟩
    rw [this] at h2
    exact Bool.noConfusion h2
  · intro k hk1 hk2
    exact (idExists_iff _ _).1 (hmin k hk1 hk2)

/-! ## The user store keeps its ids distinct -/

theorem replaceFirst_ids (cur : User) : ∀ (us r : List User),
    replaceFirst cur us = some r → r.map User.ID = us.map User.ID := by
  intro us
  induction us with
  | nil => intro r h; simp [replaceFirst] at h
  | cons u us ih =>
    intro r h
    simp only [replaceFirst] at h
    split at h
    · rename_i hid
      simp only [Option.some.injEq] at h
      subst h
      simp [hid]
    · simp only [Option.map_eq_some'] at h
      obtain ⟨r', hr', rfl⟩ := h
      simp [ih r' hr']

theorem replaceFirst_none (cur : User) : ∀ us : List User,
    replaceFirst cur us = none → cur.ID ∉ us.map User.ID := by
  intro us
  induction us with
  | nil => intro _; simp
  | cons u us ih =>
    intro h
    simp only [replaceFirst] at h
    split at h
    · simp at h
    · rename_i hid
      simp only [Option.map_eq_none'] at h
      simp only [List.map_cons, List.mem_cons, not_or]
      exact ⟨fun e => hid e.symm, ih h⟩

theorem saveUser_some (w : World) (cur : User) (h : w.currentUser = some cur) :
    ∃ w', saveUser w = some w' := by
  simp [saveUser, h]

theorem saveUser_idsDistinct (w w' : World) (hd : idsDistinct w) (h : saveUser w = some w') :
    idsDistinct w' := by
  unfold saveUser at h
  cases hc : w.currentUser with
  | none => simp [hc] at h
  | some cur =>
    simp only [hc, Option.some.injEq] at h
    subst h
    unfold idsDistinct storedIDs loadAllUsers at *
    cases hr : replaceFirst cur w.usersFile with
    | some r =>
      simp only
      rw [replaceFirst_ids cur _ r hr]
      exact hd
    | none =>
      have hnot := replaceFirst_none cur _ hr
      simp only [List.map_append, List.map_cons, List.map_nil]
      exact List.Nodup.append hd (List.nodup_singleton _) (by simpa using hnot)

theorem idsDistinct_congr {w w' : World} (h : w'.usersFile = w.usersFile) :
    idsDistinct w' ↔ idsDistinct w := by
  simp [idsDistinct, storedIDs, loadAllUsers, h]

theorem createNewUser_idsDistinct (τ : CaseTable) (w w' : World) (fuel : Nat)
    (hd : idsDistinct w)
    (h : createNewUser τ w fuel = some w') : idsDistinct w' := by
  unfold createNewUser at h
  simp only at h
  split at h
  · simp at h
  · rename_i userID _
    split at h
    · simp at h
    · rename_i w2 hsave
      simp only [Option.some.injEq] at h
      subst h
      have hd2 := saveUser_idsDistinct _ w2 ((idsDistinct_congr (by simp [readInput, timeNow])).2 hd) hsave
      exact (idsDistinct_congr (by simp [readInput, emit])).2 hd2

theorem createNewUser_some (τ : CaseTable) (w : World) (fuel : Nat)
    (hfuel : (loadAllUsers w).length < fuel) :
    ∃ w', createNewUser τ w fuel = some w' := by
  obtain ⟨-, -, n, -, hn, -, -, hrun, -⟩ :=
    generateUserID_search τ (readInput w).2 (readInput w).1
  have hlen : (loadAllUsers (readInput w).2).length = (loadAllUsers w).length := by
    simp [loadAllUsers, readInput]
  have := hrun fuel (by omega)
  simp [createNewUser, this, saveUser]

theorem manageUsers_usersFile (w : World) :
    (manageUsers w).usersFile = w.usersFile ∨
    ∃ n : Nat, (manageUsers w).usersFile = w.usersFile.take n ++ w.usersFile.drop (n + 1) := by
  simp only [manageUsers, loadAllUsers, readInput, emit]
  split
  · left; rfl
  · split
    · split
      · split
        · right
          rename_i hr _
          refine ⟨(wrapInt (Sscanf (TrimSpace (w.stdin.tail.headD "")) - 1)).toNat, ?_⟩
          simp only
          congr 2
          have := hr.1
          omega
        · left; rfl
      · left; rfl
    · left; rfl

theorem manageUsers_idsDistinct (w : World) (hd : idsDistinct w) : idsDistinct (manageUsers w) := by
  rcases manageUsers_usersFile w with h | ⟨n, h⟩
  · exact (idsDistinct_congr h).2 hd
  · unfold idsDistinct storedIDs loadAllUsers at *
    rw [h]
    refine List.Nodup.sublist ?_ hd
    apply List.Sublist.map
    conv_rhs => rw [← List.take_append_drop n w.usersFile]
    exact List.Sublist.append (List.Sublist.refl _) (List.drop_sublist_drop_left _ (Nat.le_succ n))



theorem saveScore_eq (w : World) (cur : User) (category module : String) (correct total : Int)
    (h : w.currentUser = some cur) :
    saveScore w category module correct total =
      saveUser (setCurrentUser (timeNow w).2
        { cur with Scores := recordScore cur.Scores category module
                    { Correct := correct, Total := total, LastTaken := (timeNow w).1 } }) := by
  unfold saveScore recordScore setCurrentUser
  simp only [h]
  cases hs : cur.Scores with
  | nil =>
    simp [GoMap.isNil, GoMap.make, GoMap.getD, GoMap.get?, GoMap.set, GoMap.bindings]
  | mk l =>
    cases hl : l.lookup category with
    | none =>
      simp [GoMap.isNil, GoMap.make, GoMap.getD, GoMap.get?, GoMap.set, GoMap.bindings, hl,
        List.filter_filter]
    | some inner =>
      cases inner with
      | nil =>
        simp [GoMap.isNil, GoMap.make, GoMap.getD, GoMap.get?, GoMap.set, GoMap.bindings, hl,
          List.filter_filter]
      | mk li =>
        simp [GoMap.isNil, GoMap.make, GoMap.getD, GoMap.get?, GoMap.set, GoMap.bindings, hl,
          List.filter_filter]


theorem replaceFirst_some_mem (cur : User) : ∀ (us r : List User),
    replaceFirst cur us = some r → cur.ID ∈ us.map User.ID := by
  intro us r h
  by_contra hnot
  have : replaceFirst cur us = none := by
    clear h
    induction us with
    | nil => rfl
    | cons u us ih =>
      simp only [List.map_cons, List.mem_cons, not_or] at hnot
      simp only [replaceFirst]
      rw [if_neg (fun e => hnot.1 e.symm), ih hnot.2]
      rfl
  rw [this] at h
  exact Option.noConfusion h

theorem saveUser_fresh (w : World) (cur : User) (hc : w.currentUser = some cur)
    (hfresh : cur.ID ∉ storedIDs w) :
    saveUser w = some { w with usersFile := w.usersFile ++ [cur] } := by
  have : replaceFirst cur w.usersFile = none := by
    cases hr : replaceFirst cur w.usersFile with
    | none => rfl
    | some r => exact absurd (replaceFirst_some_mem cur _ r hr) hfresh
  simp [saveUser, hc, loadAllUsers, this]

theorem saveScore_some (w : World) (cur : User) (category module : String) (correct total : Int)
    (h : w.currentUser = some cur) :
    ∃ w', saveScore w category module correct total = some w' := by
  rw [saveScore_eq w cur category module correct total h]
  exact saveUser_some _ _ rfl

theorem saveScore_idsDistinct (w w' : World) (category module : String) (correct total : Int)
    (hd : idsDistinct w) (h : saveScore w category module correct total = some w') :
    idsDistinct w' := by
  cases hc : w.currentUser with
  | none => simp [saveScore, hc] at h
  | some cur =>
    rw [saveScore_eq w cur category module correct total hc] at h
    exact saveUser_idsDistinct _ w' ((idsDistinct_congr (by simp [setCurrentUser, timeNow])).2 hd) h

/-! ## The quiz loop -/

theorem scanInt_range (s : String) (v : Int) (h : scanInt s = some v) :
    minInt ≤ v ∧ v ≤ maxInt := by
  unfold scanInt at h
  simp only at h
  split_ifs at h with h1 h2
  simp only [Option.some.injEq] at h
  rw [← h]
  exact h2

theorem Sscanf_range (s : String) : minInt ≤ Sscanf s ∧ Sscanf s ≤ maxInt := by
  unfold Sscanf
  cases h : scanInt s with
  | none => simp [minInt, maxInt]
  | some v => simpa using scanInt_range s v h

theorem Sscanf_of_scan_fails (s : String) (h : scanInt s = none) : Sscanf s = 0 := by
  simp [Sscanf, h]

theorem wrapInt_pred_eq_iff (t a len : Int) (ht : minInt ≤ t ∧ t ≤ maxInt)
    (h0 : 0 ≤ a) (h1 : a < len) (h2 : len ≤ maxInt) :
    wrapInt (t - 1) = a ↔ t - 1 = a := by
  unfold wrapInt
  unfold minInt maxInt at *
  omega

theorem index_of_valid (q : Question) (h : validAnswer q) :
    ∃ text, index q.Options q.Answer = some text := by
  obtain ⟨h0, h1, _⟩ := h
  unfold index
  rw [if_pos ⟨h0, h1⟩]
  have : q.Answer.toNat < q.Options.length := by omega
  exact ⟨q.Options.get ⟨_, this⟩, List.get?_eq_get this⟩

theorem askQuestions_cons (total : Nat) (q : Question) (rest : List Question) (i : Nat)
    (correct : Int) (w : World) :
    askQuestions total (q :: rest) i correct w =
      if wrapInt (typedNumber w.stdin - 1) = q.Answer then
        askQuestions total rest (i + 1) (correct + 1) (afterAnswer w total i q Event.correct)
      else
        match index q.Options q.Answer with
        | none => none
        | some text =>
          askQuestions total rest (i + 1) correct (afterAnswer w total i q (Event.incorrect text)) := by
  rw [askQuestions]
  simp only [typedNumber, afterAnswer, readInput, emit]
  by_cases hans : wrapInt (Sscanf (TrimSpace (w.stdin.headD "")) - 1) = q.Answer
  · simp only [if_pos hans]
  · simp only [if_neg hans]
    cases index q.Options q.Answer <;> rfl

theorem askedLog_append (a b : List Event) : askedLog (a ++ b) = askedLog a ++ askedLog b := by
  induction a with
  | nil => rfl
  | cons e a ih => cases e <;> simp [askedLog, ih]

theorem tail_tail_eq_drop {α : Type} (l : List α) : l.tail.tail = l.drop 2 := by
  cases l with
  | nil => rfl
  | cons a t => cases t <;> rfl

theorem afterAnswer_stdin (w : World) (total i : Nat) (q : Question) (e : Event) :
    (afterAnswer w total i q e).stdin = w.stdin.drop 2 := by
  simp [afterAnswer, readInput, emit, tail_tail_eq_drop]

theorem afterAnswer_out (w : World) (total i : Nat) (q : Question) (e : Event) :
    (afterAnswer w total i q e).out = w.out ++ [Event.asked (i + 1) total q, e] := by
  simp [afterAnswer, readInput, emit]

theorem afterAnswer_frame (w : World) (total i : Nat) (q : Question) (e : Event) :
    (afterAnswer w total i q e).currentUser = w.currentUser ∧
    (afterAnswer w total i q e).usersFile = w.usersFile ∧
    (afterAnswer w total i q e).clock = w.clock ∧
    (afterAnswer w total i q e).quizData = w.quizData ∧
    (afterAnswer w total i q e).questionsFile = w.questionsFile ∧
    (afterAnswer w total i q e).adminConfig = w.adminConfig ∧
    (afterAnswer w total i q e).adminFile = w.adminFile := by
  simp [afterAnswer, readInput, emit]

theorem askQuestions_valid (total : Nat) : ∀ (qs : List Question) (i : Nat) (correct : Int)
    (w : World), (∀ q ∈ qs, validAnswer q) →
    ∃ w', askQuestions total qs i correct w = some (correct + tally qs w.stdin, w') ∧
      askedLog w'.out = askedLog w.out ++ qs.enumFrom (i + 1) ∧
      w'.stdin = w.stdin.drop (2 * qs.length) ∧
      w'.currentUser = w.currentUser ∧ w'.usersFile = w.usersFile ∧ w'.clock = w.clock ∧
      w'.quizData = w.quizData ∧ w'.questionsFile = w.questionsFile ∧
      w'.adminConfig = w.adminConfig ∧ w'.adminFile = w.adminFile := by
  intro qs
  induction qs with
  | nil => intro i correct w _; exact ⟨w, by simp [askQuestions, tally]⟩
  | cons q rest ih =>
    intro i correct w hvalid
    have hq := hvalid q (List.mem_cons_self _ _)
    have hrest : ∀ q' ∈ rest, validAnswer q' := fun q' h => hvalid q' (List.mem_cons_of_mem _ h)
    obtain ⟨text, htext⟩ := index_of_valid q hq
    have hiff := wrapInt_pred_eq_iff (typedNumber w.stdin) q.Answer _
      (Sscanf_range _) hq.1 hq.2.1 hq.2.2
    have key : ∃ (e : Event) (c : Int),
        askQuestions total (q :: rest) i correct w =
          askQuestions total rest (i + 1) c (afterAnswer w total i q e) ∧
        e ≠ Event.asked (i + 1) total q ∧ (∀ n t q', e ≠ Event.asked n t q') ∧
        c + tally rest (w.stdin.drop 2) = correct + tally (q :: rest) w.stdin := by
      rw [askQuestions_cons]
      by_cases hans : wrapInt (typedNumber w.stdin - 1) = q.Answer
      · have : q.Answer = typedNumber w.stdin - 1 := (hiff.1 hans).symm
        refine ⟨Event.correct, correct + 1, by rw [if_pos hans], by simp, by simp, ?_⟩
        simp only [tally, if_pos this]
        ring
      · have : ¬ q.Answer = typedNumber w.stdin - 1 := fun e => hans (hiff.2 e.symm)
        refine ⟨Event.incorrect text, correct, by rw [if_neg hans, htext], by simp, by simp, ?_⟩
        simp only [tally, if_neg this]
        ring
    obtain ⟨e, c, hstep, -, hne, htally⟩ := key
    obtain ⟨w', h1, h2, h3, h4, h5, h6, h7, h8, h9, h10⟩ :=
      ih (i + 1) c (afterAnswer w total i q e) hrest
    obtain ⟨f1, f2, f3, f4, f5, f6, f7⟩ := afterAnswer_frame w total i q e
    refine ⟨w', ?_, ?_, ?_, by rw [h4, f1], by rw [h5, f2], by rw [h6, f3], by rw [h7, f4],
      by rw [h8, f5], by rw [h9, f6], by rw [h10, f7]⟩
    · rw [hstep, h1, afterAnswer_stdin, htally]
    · rw [h2, afterAnswer_out, askedLog_append]
      have he : askedLog [Event.asked (i + 1) total q, e] = [(i + 1, q)] := by
        cases e <;> first | rfl | exact absurd rfl (hne _ _ _)
      simp [he, List.enumFrom]
    · rw [h3, afterAnswer_stdin, List.drop_drop]
      congr 1
      simp only [List.length_cons]
      omega

theorem replaceFirst_mem (cur : User) : ∀ (us r : List User),
    replaceFirst cur us = some r → cur ∈ r := by
  intro us
  induction us with
  | nil => intro r h; simp [replaceFirst] at h
  | cons u us ih =>
    intro r h
    simp only [replaceFirst] at h
    split at h
    · simp only [Option.some.injEq] at h
      subst h
      exact List.mem_cons_self _ _
    · simp only [Option.map_eq_some'] at h
      obtain ⟨r', hr', rfl⟩ := h
      exact List.mem_cons_of_mem _ (ih r' hr')

theorem saveUser_eq (w : World) (cur : User) (h : w.currentUser = some cur) :
    saveUser w = some { w with
      usersFile := (replaceFirst cur w.usersFile).getD (w.usersFile ++ [cur]) } := by
  simp only [saveUser, h, loadAllUsers]
  cases replaceFirst cur w.usersFile <;> rfl

theorem mem_stored_after_save (cur : User) (us : List User) :
    cur ∈ (replaceFirst cur us).getD (us ++ [cur]) := by
  cases h : replaceFirst cur us with
  | none => simp
  | some r => simpa using replaceFirst_mem cur us r h

theorem lookupScore_withScore (cur : User) (category module : String) (correct total : Int)
    (t : Time) :
    lookupScore (withScore cur category module correct total t) category module
      = some { Correct := correct, Total := total, LastTaken := t } := by
  simp [withScore, lookupScore, recordScore, GoMap.getD, GoMap.get?, GoMap.bindings, List.lookup]

theorem tally_bounds : ∀ (qs : List Question) (lines : List String),
    0 ≤ tally qs lines ∧ tally qs lines ≤ (qs.length : Int) := by
  intro qs
  induction qs with
  | nil => intro lines; simp [tally]
  | cons q rest ih =>
    intro lines
    have := ih (lines.drop 2)
    simp only [tally, List.length_cons, Nat.cast_add, Nat.cast_one]
    split <;> omega

theorem takeQuiz_valid (w : World) (cur : User) (category module : String)
    (hcur : w.currentUser = some cur)
    (hne : getQuestionsByModule w category module ≠ [])
    (hvalid : ∀ q ∈ getQuestionsByModule w category module, validAnswer q) :
    ∃ w', takeQuiz w category module = some w' ∧
      askedLog w'.out =
        askedLog w.out ++ (getQuestionsByModule w category module).enumFrom 1 ∧
      w'.currentUser = some (withScore cur category module
        (tally (getQuestionsByModule w category module) w.stdin)
        (getQuestionsByModule w category module).length (w.clock.headD 0)) ∧
      (∃ u ∈ w'.usersFile, some u = w'.currentUser) ∧
      Event.quizCompleted category module
        (tally (getQuestionsByModule w category module) w.stdin)
        (getQuestionsByModule w category module).length ∈ w'.out ∧
      w'.stdin = w.stdin.drop (2 * (getQuestionsByModule w category module).length + 1) := by
  obtain ⟨w1, h1, h2, h3, h4, h5, h6, h7, h8, h9, h10⟩ :=
    askQuestions_valid (getQuestionsByModule w category module).length
      (getQuestionsByModule w category module) 0 0 w hvalid
  have hlen : (getQuestionsByModule w category module).length ≠ 0 := by
    simpa [List.length_eq_zero] using hne
  have hc1 : w1.currentUser = some cur := by rw [h4, hcur]
  unfold takeQuiz
  simp only [if_neg hlen, h1, saveScore_eq w1 cur _ _ _ _ hc1]
  rw [saveUser_eq _ _ rfl]
  refine ⟨_, rfl, ?_, ?_, ?_, ?_, ?_⟩
  · simp [readInput, emit, setCurrentUser, timeNow, askedLog_append, askedLog, h2]
  · simp [readInput, emit, setCurrentUser, timeNow, h6, withScore]
  · refine ⟨_, ?_, rfl⟩
    simp only [readInput, emit, setCurrentUser, timeNow]
    exact mem_stored_after_save _ _
  · simp [readInput, emit, setCurrentUser, timeNow]
  · simp [readInput, emit, setCurrentUser, timeNow, h3, ← List.drop_one, List.drop_drop]

/-! ## The score map -/

theorem lookup_filter_ne {V : Type} (k k' : String) (hne : k' ≠ k) : ∀ l : List (String × V),
    (l.filter (fun p => p.1 != k)).lookup k' = l.lookup k' := by
  intro l
  induction l with
  | nil => rfl
  | cons p l ih =>
    obtain ⟨a, v⟩ := p
    by_cases ha : a = k
    · subst ha
      have h1 : (k' == a) = false := by simpa using hne
      simp [List.filter, List.lookup, h1, ih]
    · have h2 : (a != k) = true := by simpa using ha
      simp only [List.filter, h2, List.lookup]
      rw [ih]

theorem filter_ne_filter_eq {V : Type} (k : String) (l : List (String × V)) :
    (l.filter (fun p => p.1 != k)).filter (fun p => p.1 = k) = [] := by
  simp [List.filter_filter, List.filter_eq_nil_iff]

theorem recordScore_twice (scores : GoMap (GoMap Score)) (category module : String)
    (s1 s2 : Score) :
    recordScore (recordScore scores category module s1) category module s2 =
      recordScore scores category module s2 := by
  simp [recordScore, GoMap.getD, GoMap.get?, GoMap.bindings, List.lookup, List.filter_filter]

theorem withScore_twice (cur : User) (category module : String) (c1 t1 c2 t2 : Int)
    (n1 n2 : Time) :
    withScore (withScore cur category module c1 t1 n1) category module c2 t2 n2 =
      withScore cur category module c2 t2 n2 := by
  simp [withScore, recordScore_twice]

theorem forgetTimes_withScore (cur : User) (category module : String) (correct total : Int)
    (n1 n2 : Time) :
    forgetTimes (withScore cur category module correct total n1).Scores =
      forgetTimes (withScore cur category module correct total n2).Scores := by
  simp [forgetTimes, withScore, recordScore, GoMap.bindings]

theorem scoreEntries_withScore (cur : User) (category module : String) (correct total : Int)
    (n : Time) :
    scoreEntries (withScore cur category module correct total n) category module =
      [{ Correct := correct, Total := total, LastTaken := n }] := by
  simp [scoreEntries, withScore, recordScore, GoMap.bindings, List.filter_filter,
    List.filter_eq_nil_iff]

theorem lookupScore_withScore_other (cur : User) (category module : String)
    (correct total : Int) (n : Time) (category' module' : String)
    (hne : ¬ (category' = category ∧ module' = module)) :
    lookupScore (withScore cur category module correct total n) category' module' =
      lookupScore cur category' module' := by
  by_cases hc : category' = category
  · subst hc
    have hm : module' ≠ module := fun e => hne ⟨rfl, e⟩
    have hb : (module' == module) = false := by simpa using hm
    simp [lookupScore, withScore, recordScore, GoMap.getD, GoMap.get?, GoMap.bindings,
      List.lookup, hb, lookup_filter_ne module module' hm]
  · have hb : (category' == category) = false := by simpa using hc
    simp [lookupScore, withScore, recordScore, GoMap.getD, GoMap.get?, GoMap.bindings,
      List.lookup, hb, lookup_filter_ne category category' hc]

theorem saveScore_result (w : World) (cur : User) (category module : String)
    (correct total : Int) (hcur : w.currentUser = some cur) :
    ∃ w1, saveScore w category module correct total = some w1 ∧
      w1.currentUser = some (withScore cur category module correct total (w.clock.headD 0)) ∧
      withScore cur category module correct total (w.clock.headD 0) ∈ w1.usersFile ∧
      w1.clock = w.clock.tail := by
  rw [saveScore_eq w cur category module correct total hcur, saveUser_eq _ _ rfl]
  refine ⟨_, rfl, rfl, ?_, rfl⟩
  exact mem_stored_after_save _ _

/-! ## Go maps and the derived module view -/

namespace GoMap
variable {V : Type}

theorem set_of_not_nil (m : GoMap V) (k : String) (v : V) (h : m.isNil = false) :
    ∃ m', m.set k v = some m' := by
  cases m with
  | nil => simp [isNil] at h
  | mk l => exact ⟨_, rfl⟩

theorem isNil_of_set (m m' : GoMap V) (k : String) (v : V) (h : m.set k v = some m') :
    m'.isNil = false := by
  cases m with
  | nil => simp [set] at h
  | mk l =>
    simp only [set, Option.some.injEq] at h
    subst h
    rfl

theorem get?_set_self (m m' : GoMap V) (k : String) (v : V) (h : m.set k v = some m') :
    m'.get? k = some v := by
  cases m with
  | nil => simp [set] at h
  | mk l =>
    simp only [set, Option.some.injEq] at h
    subst h
    simp [get?, bindings, List.lookup]

theorem get?_set_other (m m' : GoMap V) (k k' : String) (v : V) (h : m.set k v = some m')
    (hne : k' ≠ k) : m'.get? k' = m.get? k' := by
  cases m with
  | nil => simp [set] at h
  | mk l =>
    simp only [set, Option.some.injEq] at h
    subst h
    have hb : (k' == k) = false := by simpa using hne
    simp [get?, bindings, List.lookup, hb, lookup_filter_ne k k' hne]

theorem keys_set (m m' : GoMap V) (k : String) (v : V) (h : m.set k v = some m') :
    m'.keys = k :: m.keys.filter (fun a => a != k) := by
  cases m with
  | nil => simp [set] at h
  | mk l =>
    simp only [set, Option.some.injEq] at h
    subst h
    simp [keys, bindings, List.filter_map, Function.comp_def]

theorem mem_keys_set (m m' : GoMap V) (k : String) (v : V) (h : m.set k v = some m')
    (a : String) : a ∈ m'.keys ↔ a = k ∨ a ∈ m.keys := by
  rw [keys_set m m' k v h]
  simp only [List.mem_cons, List.mem_filter, bne_iff_ne, ne_eq]
  constructor
  · rintro (h1 | ⟨h1, _⟩)
    · exact Or.inl h1
    · exact Or.inr h1
  · rintro (h1 | h1)
    · exact Or.inl h1
    · by_cases e : a = k
      · exact Or.inl e
      · exact Or.inr ⟨h1, e⟩

theorem getD_isNil_false (m : GoMap (GoMap V)) (k : String)
    (h : (m.getD k nil).isNil = false) : m.get? k = some (m.getD k nil) := by
  unfold getD at *
  cases hg : m.get? k with
  | none => simp [hg, isNil] at h
  | some inner => rfl

end GoMap

theorem collectModules_inv (R : String → String → Prop) : ∀ (qs : List Question)
    (modules : GoMap (GoMap Bool)), ModulesInv R modules →
    (∀ q ∈ qs, R q.Category q.Module) →
    ∃ modules', collectModules qs modules = some modules' ∧ ModulesInv R modules' := by
  intro qs
  induction qs with
  | nil => intro modules h _; exact ⟨modules, rfl, h⟩
  | cons q rest ih =>
    intro modules hinv hR
    have hq := hR q (List.mem_cons_self _ _)
    have hrest : ∀ q' ∈ rest, R q'.Category q'.Module :=
      fun q' h => hR q' (List.mem_cons_of_mem _ h)
    -- the guarded creation of the set of the category
    have step1 : ∃ modules1,
        (if (modules.getD q.Category GoMap.nil).isNil then modules.set q.Category GoMap.make
          else some modules) = some modules1 ∧ ModulesInv R modules1 ∧
        (modules1.getD q.Category GoMap.nil).isNil = false := by
      by_cases hnil : (modules.getD q.Category GoMap.nil).isNil = true
      · obtain ⟨m1, hm1⟩ := GoMap.set_of_not_nil modules q.Category GoMap.make hinv.1
        refine ⟨m1, by rw [if_pos hnil, hm1], ⟨GoMap.isNil_of_set _ _ _ _ hm1, ?_⟩, ?_⟩
        · intro c inner hc
          by_cases e : c = q.Category
          · subst e
            rw [GoMap.get?_set_self _ _ _ _ hm1] at hc
            simp only [Option.some.injEq] at hc
            subst hc
            exact ⟨rfl, by simp [GoMap.make, GoMap.keys, GoMap.bindings]⟩
          · rw [GoMap.get?_set_other _ _ _ _ _ hm1 e] at hc
            exact hinv.2 c inner hc
        · simp [GoMap.getD, GoMap.get?_set_self _ _ _ _ hm1, GoMap.make, GoMap.isNil]
      · simp only [Bool.not_eq_true] at hnil
        exact ⟨modules, by simp [hnil], hinv, hnil⟩
    obtain ⟨m1, h1, hinv1, hnn⟩ := step1
    have hget := GoMap.getD_isNil_false m1 q.Category hnn
    obtain ⟨mods, hmods⟩ := GoMap.set_of_not_nil (m1.getD q.Category GoMap.nil) q.Module true hnn
    obtain ⟨m2, hm2⟩ := GoMap.set_of_not_nil m1 q.Category mods hinv1.1
    have hinv2 : ModulesInv R m2 := by
      refine ⟨GoMap.isNil_of_set _ _ _ _ hm2, ?_⟩
      intro c inner hc
      by_cases e : c = q.Category
      · subst e
        rw [GoMap.get?_set_self _ _ _ _ hm2] at hc
        simp only [Option.some.injEq] at hc
        subst hc
        refine ⟨GoMap.isNil_of_set _ _ _ _ hmods, ?_⟩
        intro m hm
        rcases (GoMap.mem_keys_set _ _ _ _ hmods m).1 hm with h | h
        · rw [h]; exact hq
        · exact (hinv1.2 _ _ hget).2 m h
      · rw [GoMap.get?_set_other _ _ _ _ _ hm2 e] at hc
        exact hinv1.2 c inner hc
    obtain ⟨m3, hm3, hinv3⟩ := ih m2 hinv2 hrest
    refine ⟨m3, ?_, hinv3⟩
    rw [collectModules]
    by_cases hnil : (modules.getD q.Category GoMap.nil).isNil = true
    · rw [if_pos hnil] at h1
      simp [hnil, h1, hmods, hm2, hm3]
    · rw [if_neg hnil] at h1
      cases h1
      simp [hnil, hmods, hm2, hm3]

theorem appendModules_inv (R : String → String → Prop) (category : String) :
    ∀ (ms : List String) (result : GoMap (List String)), ResultInv R result →
    (∀ m ∈ ms, R category m) →
    ∃ result', appendModules category ms result = some result' ∧ ResultInv R result' := by
  intro ms
  induction ms with
  | nil => intro result h _; exact ⟨result, rfl, h⟩
  | cons m rest ih =>
    intro result hinv hR
    obtain ⟨r1, hr1⟩ := GoMap.set_of_not_nil result category
      (result.getD category [] ++ [m]) hinv.1
    have hinv1 : ResultInv R r1 := by
      refine ⟨GoMap.isNil_of_set _ _ _ _ hr1, ?_⟩
      intro c mods hc
      by_cases e : c = category
      · subst e
        rw [GoMap.get?_set_self _ _ _ _ hr1] at hc
        simp only [Option.some.injEq] at hc
        subst hc
        intro a ha
        rcases List.mem_append.1 ha with h | h
        · unfold GoMap.getD at h
          cases hg : result.get? c with
          | none => simp [hg] at h
          | some old =>
            rw [hg] at h
            exact hinv.2 c old hg a h
        · simp only [List.mem_singleton] at h
          rw [h]
          exact hR m (List.mem_cons_self _ _)
      · rw [GoMap.get?_set_other _ _ _ _ _ hr1 e] at hc
        exact hinv.2 c mods hc
    obtain ⟨r2, hr2, hinv2⟩ := ih r1 hinv1 (fun a ha => hR a (List.mem_cons_of_mem _ ha))
    exact ⟨r2, by simp [appendModules, hr1, hr2], hinv2⟩

theorem range_subset_keys {V : Type} (ρ : RangeOrder) (m : GoMap V) :
    ∀ a ∈ m.range ρ, a ∈ m.keys := by
  intro a ha
  exact (ρ.perm m.keys).subset ha

theorem buildResult_inv (R : String → String → Prop) (ρ : RangeOrder)
    (modules : GoMap (GoMap Bool)) (hmod : ModulesInv R modules) :
    ∀ (cs : List String) (result : GoMap (List String)), ResultInv R result →
    ∃ result', buildResult ρ modules cs result = some result' ∧ ResultInv R result' := by
  intro cs
  induction cs with
  | nil => intro result h; exact ⟨result, rfl, h⟩
  | cons c rest ih =>
    intro result hinv
    have hR : ∀ m ∈ (modules.getD c GoMap.nil).range ρ, R c m := by
      intro m hm
      have hk := range_subset_keys ρ _ m hm
      unfold GoMap.getD at hk
      cases hg : modules.get? c with
      | none => simp [hg, GoMap.keys, GoMap.bindings] at hk
      | some inner =>
        rw [hg] at hk
        exact (hmod.2 c inner hg).2 m hk
    obtain ⟨r1, hr1, hinv1⟩ := appendModules_inv R c _ result hinv hR
    obtain ⟨r2, hr2, hinv2⟩ := ih r1 hinv1
    exact ⟨r2, by simp [buildResult, hr1, hr2], hinv2⟩

theorem getAvailableModules_sound (ρ : RangeOrder) (w : World) :
    ∃ result, getAvailableModules ρ w = some result ∧ result.isNil = false ∧
      ∀ c mods, result.get? c = some mods → ∀ m ∈ mods,
        ∃ q ∈ w.quizData.Questions, q.Category = c ∧ q.Module = m := by
  have h0 : ModulesInv (fun c m => ∃ q ∈ w.quizData.Questions, q.Category = c ∧ q.Module = m)
      (GoMap.make : GoMap (GoMap Bool)) := by
    refine ⟨rfl, ?_⟩
    intro c inner hc
    simp [GoMap.make, GoMap.get?, GoMap.bindings] at hc
  obtain ⟨modules, hm, hinv⟩ := collectModules_inv _ w.quizData.Questions GoMap.make h0
    (fun q hq => ⟨q, hq, rfl, rfl⟩)
  have hr0 : ResultInv (fun c m => ∃ q ∈ w.quizData.Questions, q.Category = c ∧ q.Module = m)
      (GoMap.make : GoMap (List String)) := by
    refine ⟨rfl, ?_⟩
    intro c mods hc
    simp [GoMap.make, GoMap.get?, GoMap.bindings] at hc
  obtain ⟨result, hr, hrinv⟩ := buildResult_inv _ ρ modules hinv (modules.range ρ) GoMap.make hr0
  exact ⟨result, by simp [getAvailableModules, hm, hr], hrinv.1, hrinv.2⟩

theorem foldl_invariant {α β : Type} (P : β → Prop) (f : β → α → β) :
    ∀ (l : List α) (b : β), P b → (∀ b a, P b → P (f b a)) → P (l.foldl f b) := by
  intro l
  induction l with
  | nil => intro b hb _; exact hb
  | cons a l ih => intro b hb hstep; exact ih (f b a) (hstep b a hb) hstep

theorem numberModules_keys (ρ : RangeOrder) (modules : GoMap (List String)) :
    ∀ p ∈ (numberModules ρ modules).1, (1 : Int) ≤ p.1 := by
  have key : (∀ p ∈ (numberModules ρ modules).1, (1 : Int) ≤ p.1) ∧
      (1 : Int) ≤ (numberModules ρ modules).2 := by
    unfold numberModules
    apply foldl_invariant
      (fun acc : List (Int × (String × String)) × Int => (∀ p ∈ acc.1, (1 : Int) ≤ p.1) ∧ 1 ≤ acc.2)
    · exact ⟨fun p hp => by simp at hp, le_refl _⟩
    · intro acc category hacc
      apply foldl_invariant
        (fun acc : List (Int × (String × String)) × Int =>
          (∀ p ∈ acc.1, (1 : Int) ≤ p.1) ∧ 1 ≤ acc.2)
      · exact hacc
      · intro acc2 mod hacc2
        refine ⟨?_, by have := hacc2.2; simp only; omega⟩
        intro p hp
        simp only [List.mem_append, List.mem_singleton] at hp
        rcases hp with h | h
        · exact hacc2.1 p h
        · rw [h]; exact hacc2.2
  exact key.1

theorem lookup_some_mem {α β : Type} [BEq α] [LawfulBEq α] (k : α) (v : β) :
    ∀ l : List (α × β), l.lookup k = some v → (k, v) ∈ l := by
  intro l
  induction l with
  | nil => intro h; simp at h
  | cons p l ih =>
    intro h
    obtain ⟨a, b⟩ := p
    simp only [List.lookup] at h
    split at h
    · rename_i heq
      simp only [Option.some.injEq] at h
      have : k = a := by simpa using heq
      subst this; subst h
      exact List.mem_cons_self _ _
    · exact List.mem_cons_of_mem _ (ih h)

theorem numberModules_choice_pos (ρ : RangeOrder) (modules : GoMap (List String)) (choice : Int)
    (mod : String × String) (h : (numberModules ρ modules).1.lookup choice = some mod) :
    1 ≤ choice :=
  numberModules_keys ρ modules _ (lookup_some_mem choice mod _ h)

theorem numberModules_of_empty (ρ : RangeOrder) (modules : GoMap (List String))
    (h : modules.bindings.length = 0) : (numberModules ρ modules).1 = [] := by
  have hk : modules.keys = [] := by
    simp only [List.length_eq_zero] at h
    simp [GoMap.keys, h]
  have hr : modules.range ρ = [] := by
    have := ρ.perm modules.keys
    rw [hk] at this
    simpa [GoMap.range, hk] using this.eq_nil
  simp [numberModules, hr]

/-! ## Destructive admin operations -/

theorem removeModule_confirmed_eq (τ : CaseTable) (ρ : RangeOrder) (w : World)
    (c m : String)
    (hsel : selectedModule ρ w = some (c, m))
    (hyes : ToLower τ (confirmationLine w) = "yes") :
    removeModule τ ρ w = some (readInput (emit (saveQuestions
      (setQuestions (readInput (readInput w).2).2 (w.quizData.Questions.filter
          (fun q => !(decide (q.Category = c ∧ q.Module = m))))))
      (Event.message "Module removed successfully!"))).2 := by
  unfold selectedModule at hsel
  obtain ⟨modules, hmods, hlook⟩ := Option.bind_eq_some.1 hsel
  have hpos := numberModules_choice_pos ρ modules _ _ hlook
  have hlen : ¬ modules.bindings.length = 0 := by
    intro h0
    rw [numberModules_of_empty ρ modules h0] at hlook
    simp at hlook
  have hnz : ¬ Sscanf (readInput w).1 = 0 := by omega
  unfold confirmationLine at hyes
  unfold removeModule
  simp only [hmods, if_neg hlen, if_neg hnz, hlook, hyes, if_true]
  rfl

theorem removeModule_unconfirmed (τ : CaseTable) (ρ : RangeOrder) (w : World)
    (hno : ToLower τ (confirmationLine w) ≠ "yes") :
    ∃ w', removeModule τ ρ w = some w' ∧ w'.quizData = w.quizData ∧
      w'.questionsFile = w.questionsFile ∧ w'.usersFile = w.usersFile ∧
      w'.currentUser = w.currentUser ∧ w'.adminConfig = w.adminConfig ∧
      w'.adminFile = w.adminFile := by
  obtain ⟨modules, hmods, -, -⟩ := getAvailableModules_sound ρ w
  unfold confirmationLine at hno
  unfold removeModule
  simp only [hmods, if_neg hno]
  split
  · exact ⟨_, rfl, by simp [readInput, emit]⟩
  · split
    · exact ⟨_, rfl, by simp [readInput]⟩
    · split
      · exact ⟨_, rfl, by simp [readInput, emit]⟩
      · exact ⟨_, rfl, by simp [readInput, emit]⟩

theorem manageUsers_unconfirmed (w : World) (hno : deletionConfirmation w ≠ "DELETE") :
    (manageUsers w).usersFile = w.usersFile ∧ (manageUsers w).currentUser = w.currentUser ∧
    (manageUsers w).quizData = w.quizData ∧ (manageUsers w).questionsFile = w.questionsFile ∧
    (manageUsers w).adminConfig = w.adminConfig ∧ (manageUsers w).adminFile = w.adminFile := by
  unfold deletionConfirmation at hno
  unfold manageUsers
  simp only [loadAllUsers, if_neg hno]
  split
  · simp [readInput, emit]
  · split
    · split
      · simp [readInput, emit]
      · simp [readInput]
    · simp [readInput]

theorem manageUsers_confirmed (w : World) (k : Nat) (hchoice : (readInput w).1 = "1")
    (hk : deletionNumber w = (k : Int)) (h1 : 1 ≤ k) (h2 : k ≤ w.usersFile.length)
    (hconf : deletionConfirmation w = "DELETE") :
    manageUsers w = (readInput (emit
      { (readInput (readInput (readInput w).2).2).2 with
        usersFile := w.usersFile.take (k - 1) ++ w.usersFile.drop k }
      (Event.message "User deleted successfully!"))).2 := by
  unfold deletionConfirmation at hconf
  unfold deletionNumber at hk
  have hlen : ¬ w.usersFile.length = 0 := by omega
  have hr := Sscanf_range (readInput (readInput w).2).1
  have hwrap : wrapInt (Sscanf (readInput (readInput w).2).1 - 1) = (k : Int) - 1 := by
    rw [hk] at hr ⊢
    unfold wrapInt
    unfold minInt maxInt at hr
    omega
  unfold manageUsers
  simp only [loadAllUsers, if_neg hlen, hchoice, if_true, hwrap, hconf]
  have hrange : (k : Int) - 1 ≥ 0 ∧ (k : Int) - 1 < (w.usersFile.length : Int) := by omega
  rw [if_pos hrange]
  have e1 : ((k : Int) - 1).toNat = k - 1 := by omega
  have e2 : ((k : Int) - 1 + 1).toNat = k := by omega
  rw [e1, e2]

/-! ## Claims on user ids -/

/-- C1: for every display name, every stored user list and every case table of
    `unicode.ToLower`, `generateUserID` returns the base followed by the decimal of
    the smallest positive integer `n` for which that text is not the id of a stored
    user.  The base is the name with every space removed and every rune lower-cased;
    removing the spaces before lower-casing, as the code does, or after it gives the
    same text.  The search always ends, with `n` at most the number of stored users
    plus one (so that many rounds of the loop are enough). -/
theorem generateUserID_smallest_free_suffix (τ : CaseTable) (w : World) (name : String) :
    baseName τ name = ToLower τ (removeSpaces name) ∧
    baseName τ name = removeSpaces (ToLower τ name) ∧
    (baseName τ name).data = (name.data.filter (fun c => c != ' ')).map τ.lower ∧
    (baseName τ name).data = (name.data.map τ.lower).filter (fun c => c != ' ') ∧
    ∃ n : Nat, 1 ≤ n ∧ n ≤ (loadAllUsers w).length + 1 ∧
      (∀ u ∈ loadAllUsers w, u.ID ≠ baseName τ name ++ Nat.repr n) ∧
      (∀ k, 1 ≤ k → k < n → ∃ u ∈ loadAllUsers w, u.ID = baseName τ name ++ Nat.repr k) ∧
      (∀ fuel, n ≤ fuel →
        generateUserID τ w name fuel = some (baseName τ name ++ Nat.repr n)) ∧
      generateUserID τ w name ((loadAllUsers w).length + 1) =
        some (baseName τ name ++ Nat.repr n) := by
  obtain ⟨h1, h2, h3⟩ := generateUserID_search τ w name
  refine ⟨h1, h2, rfl, ?_, h3⟩
  rw [h2]
  rfl

/-- C1 at the store with ids alice1 and alice3: the name "Alice Smith" gets the id
    alicesmith1, the name "Alice" the id alice2 and, with the case table of Latin-1,
    the name "ÉCOLE Été" the id écoleété1. -/
theorem generateUserID_smallest_free_suffix_witness :
    (∃ n : Nat, 1 ≤ n ∧ n ≤ 3 ∧
      (∀ u ∈ loadAllUsers gapStore, u.ID ≠ "alicesmith" ++ Nat.repr n) ∧
      generateUserID latin1 gapStore "Alice Smith" 3 = some ("alicesmith" ++ Nat.repr n)) ∧
    generateUserID latin1 gapStore "Alice Smith" 3 = some "alicesmith1" ∧
    generateUserID latin1 gapStore "Alice" 3 = some "alice2" ∧
    baseName latin1 "ÉCOLE Été" = "écoleété" ∧
    generateUserID latin1 gapStore "ÉCOLE Été" 3 = some "écoleété1" := by
  refine ⟨?_, by decide, by decide, by decide, by decide⟩
  obtain ⟨-, -, -, -, n, h1, h2, h3, -, -, h6⟩ :=
    generateUserID_smallest_free_suffix latin1 gapStore "Alice Smith"
  exact ⟨n, h1, h2, h3, h6⟩

/-- C2, as stated, fails: in the session that registers "Alice" twice, deletes
    alice1 and registers "Alice" a third time, the third id is alice1, not alice3. -/
theorem third_alice_is_not_alice3 :
    (registerDeleteRegister latin1 aliceSession 3 3).map storedIDs = some ["alice2"] ∧
    (registerDeleteRegister latin1 aliceSession 3 4).map currentID = some (some "alice1") ∧
    (registerDeleteRegister latin1 aliceSession 3 4).map currentID ≠ some (some "alice3") := by
  decide

/-- C2, amended: from an empty user store (whatever the rest of the state, the lines
    typed at the "press Enter" prompts and the rounds allowed beyond two), registering
    "Alice" yields alice1, registering "Alice" again yields alice2, and after the admin
    deletes alice1 a third "Alice" yields alice1 again: the freed suffix is reused. -/
theorem freed_suffix_is_reused (τ : CaseTable) (w : World) (e1 e2 e3 e4 : String)
    (rest : List String) (f : Nat) :
    (registerDeleteRegister τ (aliceInput w e1 e2 e3 e4 rest) (f + 2) 1).map storedIDs =
      some ["alice1"] ∧
    (registerDeleteRegister τ (aliceInput w e1 e2 e3 e4 rest) (f + 2) 1).map currentID =
      some (some "alice1") ∧
    (registerDeleteRegister τ (aliceInput w e1 e2 e3 e4 rest) (f + 2) 2).map storedIDs =
      some ["alice1", "alice2"] ∧
    (registerDeleteRegister τ (aliceInput w e1 e2 e3 e4 rest) (f + 2) 2).map currentID =
      some (some "alice2") ∧
    (registerDeleteRegister τ (aliceInput w e1 e2 e3 e4 rest) (f + 2) 3).map storedIDs =
      some ["alice2"] ∧
    (registerDeleteRegister τ (aliceInput w e1 e2 e3 e4 rest) (f + 2) 4).map storedIDs =
      some ["alice2", "alice1"] ∧
    (registerDeleteRegister τ (aliceInput w e1 e2 e3 e4 rest) (f + 2) 4).map currentID =
      some (some "alice1") := by
  have t1 : TrimSpace "Alice" = "Alice" := by decide
  have t2 : TrimSpace "1" = "1" := by decide
  have t3 : TrimSpace "DELETE" = "DELETE" := by decide
  have b1 : baseName τ "Alice" = "alice" := by
    rw [baseName, ToLower_ascii τ _ (by decide)]
    decide
  have s1 : Sprintf_sd "alice" 1 = "alice1" := by decide
  have s2 : Sprintf_sd "alice" 2 = "alice2" := by decide
  have n1 : Sscanf "1" = 1 := by decide
  have n2 : wrapInt 0 = 0 := by decide
  have d1 : ("alice1" = "alice2") = False := by decide
  have d2 : ("alice2" = "alice1") = False := by decide
  simp [aliceInput, registerDeleteRegister, storedIDs, currentID, manageUsers, createNewUser,
    readInput, timeNow, generateUserID, generateUserIDLoop, loadAllUsers, idExists, saveUser,
    replaceFirst, emit, t1, t2, t3, b1, s1, s2, n1, n2, d1, d2]

/-- C3: if the stored users have pairwise-distinct ids, they still have after every
    operation that writes the store: registration (`generateUserID` followed by
    `saveUser`, for any name and also as `createNewUser` runs it), score recording
    (`saveScore`, which calls `saveUser` for the current user) and the deletion of
    `manageUsers`.  Registration and score recording do produce a result (with enough
    rounds for the id search, and with a current user). -/
theorem stored_ids_stay_distinct (τ : CaseTable) (w : World) (h : idsDistinct w) :
    (∀ (name : String) (fuel : Nat) (userID : String) (u : User),
        generateUserID τ w name fuel = some userID → u.ID = userID →
        ∃ w', saveUser (setCurrentUser w u) = some w' ∧
          storedIDs w' = storedIDs w ++ [userID] ∧ idsDistinct w') ∧
    (∀ fuel w', createNewUser τ w fuel = some w' → idsDistinct w') ∧
    (∀ fuel, (loadAllUsers w).length < fuel → ∃ w', createNewUser τ w fuel = some w') ∧
    (∀ category module correct total w',
        saveScore w category module correct total = some w' → idsDistinct w') ∧
    (∀ cur category module correct total, w.currentUser = some cur →
        ∃ w', saveScore w category module correct total = some w') ∧
    idsDistinct (manageUsers w) := by
  refine ⟨?_, fun fuel w' hw => createNewUser_idsDistinct τ w w' fuel h hw,
    fun fuel hf => createNewUser_some τ w fuel hf,
    fun c m k t w' hw => saveScore_idsDistinct w w' c m k t h hw,
    fun cur c m k t hc => saveScore_some w cur c m k t hc,
    manageUsers_idsDistinct w h⟩
  intro name fuel userID u hgen hid
  have hfree := generateUserIDLoop_free _ _ _ _ _ hgen
  have hnot : u.ID ∉ storedIDs (setCurrentUser w u) := by
    intro hmem
    obtain ⟨v, hv, hvid⟩ := List.mem_map.1 hmem
    have : idExists (loadAllUsers w) userID = true :=
      (idExists_iff _ _).2 ⟨v, hv, hvid.trans hid⟩
    rw [this] at hfree
    exact Bool.noConfusion hfree
  have hsave := saveUser_fresh (setCurrentUser w u) u rfl hnot
  refine ⟨_, hsave, ?_, ?_⟩
  · simp [storedIDs, loadAllUsers, setCurrentUser, hid]
  · exact saveUser_idsDistinct _ _ ((idsDistinct_congr (by simp [setCurrentUser])).2 h) hsave

/-- C3 at the store with ids alice1 and alice3, where user number 2 is deleted. -/
theorem stored_ids_stay_distinct_witness :
    idsDistinct deleteSession ∧ storedIDs (manageUsers deleteSession) = ["alice1"] ∧
    idsDistinct (manageUsers deleteSession) :=
  ⟨by decide, by decide, (stored_ids_stay_distinct latin1 deleteSession (by decide)).2.2.2.2.2⟩

/-! ## Claims on the quiz engine -/

/-- C4, as stated, fails: a question whose answer index lies outside its options
    (here index 7 of four options) makes `takeQuiz` panic on a wrong answer, so no
    score is recorded although the module has one question. -/
theorem takeQuiz_panics_on_answer_out_of_range :
    getQuestionsByModule brokenQuestion "Cisco" "CCNA" ≠ [] ∧
    takeQuiz brokenQuestion "Cisco" "CCNA" = none := by
  decide

/-- C4, amended: with a logged-in user, for every non-empty list of questions of a
    module in which every answer is an index into its options, and every sequence of
    typed lines, `takeQuiz` returns; it shows each question exactly once, in list
    order, numbered from 1; it records for the module the score with total = the
    number of questions and correct = the number of questions whose answer index is
    the typed number minus one, at the time read from the clock; the recorded user
    is stored; hence 0 <= correct <= total and total > 0. -/
theorem takeQuiz_records_tally (w : World) (cur : User) (category module : String)
    (hcur : w.currentUser = some cur)
    (hne : getQuestionsByModule w category module ≠ [])
    (hvalid : ∀ q ∈ getQuestionsByModule w category module, validAnswer q) :
    ∃ w' u', takeQuiz w category module = some w' ∧
      askedLog w'.out =
        askedLog w.out ++ (getQuestionsByModule w category module).enumFrom 1 ∧
      w'.currentUser = some u' ∧ u' ∈ w'.usersFile ∧
      lookupScore u' category module = some
        { Correct := tally (getQuestionsByModule w category module) w.stdin,
          Total := (getQuestionsByModule w category module).length,
          LastTaken := w.clock.headD 0 } ∧
      Event.quizCompleted category module
        (tally (getQuestionsByModule w category module) w.stdin)
        (getQuestionsByModule w category module).length ∈ w'.out ∧
      0 ≤ tally (getQuestionsByModule w category module) w.stdin ∧
      tally (getQuestionsByModule w category module) w.stdin ≤
        ((getQuestionsByModule w category module).length : Int) ∧
      0 < (getQuestionsByModule w category module).length := by
  obtain ⟨w', h1, h2, h3, ⟨u, hu, hcu⟩, h5, _⟩ :=
    takeQuiz_valid w cur category module hcur hne hvalid
  have hb := tally_bounds (getQuestionsByModule w category module) w.stdin
  refine ⟨w', _, h1, h2, h3, ?_, lookupScore_withScore _ _ _ _ _ _, h5, hb.1, hb.2,
    List.length_pos.2 hne⟩
  rw [h3] at hcu
  simp only [Option.some.injEq] at hcu
  rw [← hcu]
  exact hu

/-- C4 on the single question with options A, B, C, D and answer index 1: the
    input "2" records correct=1, total=1 and the input "9" records correct=0,
    total=1. -/
theorem takeQuiz_records_tally_witness :
    (oneQuestion "2").currentUser.isSome ∧
    getQuestionsByModule (oneQuestion "2") "Cisco" "CCNA" ≠ [] ∧
    (∀ q ∈ getQuestionsByModule (oneQuestion "2") "Cisco" "CCNA", validAnswer q) ∧
    tally (getQuestionsByModule (oneQuestion "2") "Cisco" "CCNA") (oneQuestion "2").stdin = 1 ∧
    tally (getQuestionsByModule (oneQuestion "9") "Cisco" "CCNA") (oneQuestion "9").stdin = 0 ∧
    (getQuestionsByModule (oneQuestion "2") "Cisco" "CCNA").length = 1 ∧
    (getQuestionsByModule (oneQuestion "9") "Cisco" "CCNA").length = 1 ∧
    (∃ w' u', takeQuiz (oneQuestion "2") "Cisco" "CCNA" = some w' ∧
      w'.currentUser = some u' ∧
      lookupScore u' "Cisco" "CCNA" = some
        { Correct := tally (getQuestionsByModule (oneQuestion "2") "Cisco" "CCNA")
            (oneQuestion "2").stdin,
          Total := (getQuestionsByModule (oneQuestion "2") "Cisco" "CCNA").length,
          LastTaken := 5000 }) ∧
    (∃ w' u', takeQuiz (oneQuestion "9") "Cisco" "CCNA" = some w' ∧
      w'.currentUser = some u' ∧
      lookupScore u' "Cisco" "CCNA" = some
        { Correct := tally (getQuestionsByModule (oneQuestion "9") "Cisco" "CCNA")
            (oneQuestion "9").stdin,
          Total := (getQuestionsByModule (oneQuestion "9") "Cisco" "CCNA").length,
          LastTaken := 5000 }) := by
  refine ⟨by decide, by decide, by decide, by decide, by decide, by decide, by decide, ?_, ?_⟩
  · obtain ⟨w', u', h1, _, h3, _, h5, _⟩ :=
      takeQuiz_records_tally (oneQuestion "2") _ "Cisco" "CCNA" rfl (by decide) (by decide)
    exact ⟨w', u', h1, h3, h5⟩
  · obtain ⟨w', u', h1, _, h3, _, h5, _⟩ :=
      takeQuiz_records_tally (oneQuestion "9") _ "Cisco" "CCNA" rfl (by decide) (by decide)
    exact ⟨w', u', h1, h3, h5⟩

/-- C5, as stated, fails in two ways.  The typed line "2abc" is not a number, yet
    `Sscanf` reads its leading 2, and the question with four options and answer
    index 1 is scored as correct (the recorded score is 1 of 1).  And for a question
    with six options whose answer index 5 is valid, the typed answer "6" lies
    outside 1-4 and is scored as correct. -/
theorem unexpected_answers_scored_correct :
    (∀ q ∈ getQuestionsByModule (oneQuestion "2abc") "Cisco" "CCNA",
      validAnswer q ∧ q.Options.length = 4 ∧ q.Answer = 1) ∧
    (oneQuestion "2abc").stdin.head? = some "2abc" ∧
    "2abc".data.all Char.isDigit = false ∧
    typedNumber (oneQuestion "2abc").stdin = 2 ∧
    (askQuestions 1 (getQuestionsByModule (oneQuestion "2abc") "Cisco" "CCNA") 0 0
      (oneQuestion "2abc")).map Prod.fst = some 1 ∧
    ((takeQuiz (oneQuestion "2abc") "Cisco" "CCNA").bind (fun w =>
      w.currentUser.bind (fun u => lookupScore u "Cisco" "CCNA"))).map
        (fun sc => (sc.Correct, sc.Total)) = some (1, 1) ∧
    validAnswer sixOptions ∧
    ¬ (1 ≤ typedNumber (oneQuestion "6").stdin ∧ typedNumber (oneQuestion "6").stdin ≤ 4) ∧
    (askQuestions 1 [sixOptions] 0 0 (oneQuestion "6")).map Prod.fst = some 1 := by
  decide

/-- C5, amended.  The typed line is read by `Sscanf` with `%d`: an optional sign and
    the leading decimal digits are read and the rest of the line is ignored; when no
    number can be read this way, or it does not fit in 64 bits, the scan fails and
    the value stays 0.  For every question whose answer is a valid index into its
    options: the lookup of the correct option's text is in bounds, so answering the
    question never fails (the loop goes on to the next question, with the tally
    raised by one or unchanged); the answer is scored as correct exactly when the
    number read is the answer index plus one; hence a line on which the scan fails,
    or whose number read is outside 1..(number of options), is scored as incorrect;
    for a question with at most four options that is every line whose number read is
    outside 1-4. -/
theorem out_of_range_answer_scored_incorrect (q : Question) (hq : validAnswer q) :
    ∃ text, index q.Options q.Answer = some text ∧
      (∀ total rest i correct w,
        askQuestions total (q :: rest) i correct w =
            askQuestions total rest (i + 1) (correct + 1)
              (afterAnswer w total i q Event.correct) ∨
        askQuestions total (q :: rest) i correct w =
            askQuestions total rest (i + 1) correct
              (afterAnswer w total i q (Event.incorrect text))) ∧
      (∀ total i correct w, (askQuestions total [q] i correct w).isSome = true) ∧
      (∀ total rest i correct w,
        ¬ (1 ≤ typedNumber w.stdin ∧ typedNumber w.stdin ≤ (q.Options.length : Int)) →
        askQuestions total (q :: rest) i correct w =
          askQuestions total rest (i + 1) correct
            (afterAnswer w total i q (Event.incorrect text))) ∧
      (∀ total rest i correct w, scanInt (TrimSpace (w.stdin.headD "")) = none →
        askQuestions total (q :: rest) i correct w =
          askQuestions total rest (i + 1) correct
            (afterAnswer w total i q (Event.incorrect text))) ∧
      (q.Options.length ≤ 4 → ∀ total rest i correct w,
        ¬ (1 ≤ typedNumber w.stdin ∧ typedNumber w.stdin ≤ 4) →
        askQuestions total (q :: rest) i correct w =
          askQuestions total rest (i + 1) correct
            (afterAnswer w total i q (Event.incorrect text))) ∧
      (∀ total rest i correct w, typedNumber w.stdin = q.Answer + 1 →
        askQuestions total (q :: rest) i correct w =
          askQuestions total rest (i + 1) (correct + 1)
            (afterAnswer w total i q Event.correct)) ∧
      (∀ total rest i correct w, typedNumber w.stdin ≠ q.Answer + 1 →
        askQuestions total (q :: rest) i correct w =
          askQuestions total rest (i + 1) correct
            (afterAnswer w total i q (Event.incorrect text))) := by
  obtain ⟨text, htext⟩ := index_of_valid q hq
  have hiff := fun (w : World) => wrapInt_pred_eq_iff (typedNumber w.stdin) q.Answer _
    (Sscanf_range _) hq.1 hq.2.1 hq.2.2
  have hwrong : ∀ total rest i correct w, typedNumber w.stdin ≠ q.Answer + 1 →
      askQuestions total (q :: rest) i correct w =
        askQuestions total rest (i + 1) correct
          (afterAnswer w total i q (Event.incorrect text)) := by
    intro total rest i correct w hout
    have hne : ¬ wrapInt (typedNumber w.stdin - 1) = q.Answer := by
      intro e
      have := (hiff w).1 e
      omega
    rw [askQuestions_cons, if_neg hne, htext]
  have hstep : ∀ total rest i correct w,
      ¬ (1 ≤ typedNumber w.stdin ∧ typedNumber w.stdin ≤ (q.Options.length : Int)) →
      askQuestions total (q :: rest) i correct w =
        askQuestions total rest (i + 1) correct
          (afterAnswer w total i q (Event.incorrect text)) := by
    intro total rest i correct w hout
    apply hwrong
    have h0 := hq.1
    have h1 := hq.2.1
    omega
  refine ⟨text, htext, ?_, ?_, hstep, ?_, ?_, ?_, hwrong⟩
  · intro total rest i correct w
    rw [askQuestions_cons]
    by_cases hans : wrapInt (typedNumber w.stdin - 1) = q.Answer
    · left; rw [if_pos hans]
    · right; rw [if_neg hans, htext]
  · intro total i correct w
    rw [askQuestions_cons]
    by_cases hans : wrapInt (typedNumber w.stdin - 1) = q.Answer
    · rw [if_pos hans]; rfl
    · rw [if_neg hans, htext]; rfl
  · intro total rest i correct w hscan
    apply hstep
    have : typedNumber w.stdin = 0 := Sscanf_of_scan_fails _ hscan
    omega
  · intro hlen total rest i correct w hout
    apply hstep
    omega
  · intro total rest i correct w hright
    have hans : wrapInt (typedNumber w.stdin - 1) = q.Answer := (hiff w).2 (by omega)
    rw [askQuestions_cons, if_pos hans]

/-- C5 on the question with six options: the typed answer "9" is outside 1..6, on
    the line "six" the scan fails, and the line "6x" is read as 6, the number of
    the correct option. -/
theorem out_of_range_answer_scored_incorrect_witness :
    validAnswer sixOptions ∧
    typedNumber (oneQuestion "9").stdin = 9 ∧
    scanInt (TrimSpace ((oneQuestion "six").stdin.headD "")) = none ∧
    typedNumber (oneQuestion "6x").stdin = sixOptions.Answer + 1 ∧
    ∃ text, index sixOptions.Options sixOptions.Answer = some text ∧
      (askQuestions 1 [sixOptions] 0 0 (oneQuestion "9")).isSome = true ∧
      askQuestions 1 [sixOptions] 0 0 (oneQuestion "9") =
        askQuestions 1 [] 1 0
          (afterAnswer (oneQuestion "9") 1 0 sixOptions (Event.incorrect text)) ∧
      askQuestions 1 [sixOptions] 0 0 (oneQuestion "six") =
        askQuestions 1 [] 1 0
          (afterAnswer (oneQuestion "six") 1 0 sixOptions (Event.incorrect text)) ∧
      askQuestions 1 [sixOptions] 0 0 (oneQuestion "6x") =
        askQuestions 1 [] 1 1 (afterAnswer (oneQuestion "6x") 1 0 sixOptions Event.correct) := by
  refine ⟨by decide, by decide, by decide, by decide, ?_⟩
  obtain ⟨text, h1, _, h3, h4, h5, _, h7, _⟩ :=
    out_of_range_answer_scored_incorrect sixOptions (by decide)
  exact ⟨text, h1, h3 1 0 0 (oneQuestion "9"), h4 1 [] 0 0 (oneQuestion "9") (by decide),
    h5 1 [] 0 0 (oneQuestion "six") (by decide), h7 1 [] 0 0 (oneQuestion "6x") (by decide)⟩

/-! ## Claims on the score map -/

/-- C6: for every logged-in user and every category, module, correct and total,
    `saveScore` returns, and calling it twice with the same arguments leaves the
    score map equal, up to the `last_taken` fields, to the map after one call; after
    each call the user holds exactly one score for the pair, with the correct and
    total of the latest call (whatever was stored before, and also when the second
    call has other values); the scores of every other pair are unchanged; the updated
    user is the one stored. -/
theorem saveScore_overwrites (w : World) (cur : User) (category module : String)
    (correct total : Int) (hcur : w.currentUser = some cur) :
    ∃ w1 u1 w2 u2,
      saveScore w category module correct total = some w1 ∧
      w1.currentUser = some u1 ∧ u1 ∈ w1.usersFile ∧
      saveScore w1 category module correct total = some w2 ∧
      w2.currentUser = some u2 ∧ u2 ∈ w2.usersFile ∧
      forgetTimes u2.Scores = forgetTimes u1.Scores ∧
      scoreEntries u1 category module =
        [{ Correct := correct, Total := total, LastTaken := w.clock.headD 0 }] ∧
      scoreEntries u2 category module =
        [{ Correct := correct, Total := total, LastTaken := w.clock.tail.headD 0 }] ∧
      lookupScore u2 category module =
        some { Correct := correct, Total := total, LastTaken := w.clock.tail.headD 0 } ∧
      (∀ category' module', ¬ (category' = category ∧ module' = module) →
        lookupScore u1 category' module' = lookupScore cur category' module' ∧
        lookupScore u2 category' module' = lookupScore cur category' module') ∧
      (∀ correct' total', ∃ w3 u3,
        saveScore w1 category module correct' total' = some w3 ∧
        w3.currentUser = some u3 ∧
        scoreEntries u3 category module =
          [{ Correct := correct', Total := total', LastTaken := w.clock.tail.headD 0 }]) := by
  obtain ⟨w1, h1, hc1, hm1, hk1⟩ := saveScore_result w cur category module correct total hcur
  obtain ⟨w2, h2, hc2, hm2, _⟩ := saveScore_result w1 _ category module correct total hc1
  rw [hk1] at hc2 hm2
  rw [withScore_twice] at hc2 hm2
  refine ⟨w1, _, w2, _, h1, hc1, hm1, h2, hc2, hm2, forgetTimes_withScore _ _ _ _ _ _ _,
    scoreEntries_withScore _ _ _ _ _ _, scoreEntries_withScore _ _ _ _ _ _,
    lookupScore_withScore _ _ _ _ _ _, ?_, ?_⟩
  · intro category' module' hne
    exact ⟨lookupScore_withScore_other _ _ _ _ _ _ _ _ hne,
      lookupScore_withScore_other _ _ _ _ _ _ _ _ hne⟩
  · intro correct' total'
    obtain ⟨w3, h3, hc3, _, _⟩ := saveScore_result w1 _ category module correct' total' hc1
    rw [hk1, withScore_twice] at hc3
    exact ⟨w3, _, h3, hc3, scoreEntries_withScore _ _ _ _ _ _⟩

/-- C6 for a user who already holds a score for Cisco/CCNA and one for another
    module, recording 4 out of 5 for Cisco/CCNA twice. -/
theorem saveScore_overwrites_witness :
    scoreSession.currentUser.isSome ∧
    ∃ w1 u1 w2 u2,
      saveScore scoreSession "Cisco" "CCNA" 4 5 = some w1 ∧ w1.currentUser = some u1 ∧
      saveScore w1 "Cisco" "CCNA" 4 5 = some w2 ∧ w2.currentUser = some u2 ∧
      forgetTimes u2.Scores = forgetTimes u1.Scores ∧
      scoreEntries u2 "Cisco" "CCNA" = [{ Correct := 4, Total := 5, LastTaken := 8000 }] ∧
      lookupScore u2 "CompTIA" "PenTest+" =
        some { Correct := 2, Total := 5, LastTaken := 20 } := by
  refine ⟨by decide, ?_⟩
  obtain ⟨w1, u1, w2, u2, h1, h2, _, h4, h5, _, h7, _, h9, _, h11, _⟩ :=
    saveScore_overwrites scoreSession _ "Cisco" "CCNA" 4 5 rfl
  refine ⟨w1, u1, w2, u2, h1, h2, h4, h5, h7, h9, ?_⟩
  rw [(h11 "CompTIA" "PenTest+" (by decide)).2]
  decide

/-! ## Claims on the admin console -/

/-- C7: for every question list and every (category, module) pair selected in
    `removeModule`, a confirmed removal returns and deletes all and only the
    questions whose category and module both match: the new list is the list of the
    non-matching questions in their original order (also in `questions.json`);
    afterwards `getAvailableModules` does not list the module under the category,
    whatever the iteration order, and `countQuestions` for the pair is 0. -/
theorem removeModule_removes_exactly (τ : CaseTable) (ρ : RangeOrder) (w : World)
    (c m : String)
    (hsel : selectedModule ρ w = some (c, m))
    (hyes : ToLower τ (confirmationLine w) = "yes") :
    ∃ w', removeModule τ ρ w = some w' ∧
      w'.quizData.Questions = w.quizData.Questions.filter
        (fun q => !(decide (q.Category = c ∧ q.Module = m))) ∧
      (∀ q, q ∈ w'.quizData.Questions ↔
        q ∈ w.quizData.Questions ∧ ¬ (q.Category = c ∧ q.Module = m)) ∧
      List.Sublist w'.quizData.Questions w.quizData.Questions ∧
      w'.questionsFile = w'.quizData ∧
      countQuestions w' c m = 0 ∧
      getQuestionsByModule w' c m = [] ∧
      (∀ ρ', ∃ modules', getAvailableModules ρ' w' = some modules' ∧
        m ∉ modules'.getD c []) ∧
      w'.usersFile = w.usersFile ∧ w'.currentUser = w.currentUser ∧
      w'.adminConfig = w.adminConfig := by
  refine ⟨_, removeModule_confirmed_eq τ ρ w c m hsel hyes, ?_⟩
  have hq : (readInput (emit (saveQuestions
      (setQuestions (readInput (readInput w).2).2 (w.quizData.Questions.filter
          (fun q => !(decide (q.Category = c ∧ q.Module = m))))))
      (Event.message "Module removed successfully!"))).2.quizData.Questions =
      w.quizData.Questions.filter (fun q => !(decide (q.Category = c ∧ q.Module = m))) := rfl
  have hmem : ∀ q, q ∈ w.quizData.Questions.filter
      (fun q => !(decide (q.Category = c ∧ q.Module = m))) ↔
      q ∈ w.quizData.Questions ∧ ¬ (q.Category = c ∧ q.Module = m) := by
    intro q
    rw [List.mem_filter]
    simp only [Bool.not_eq_true', decide_eq_false_iff_not]
  refine ⟨hq, ?_, ?_, rfl, ?_, ?_, ?_, rfl, rfl, rfl⟩
  · intro q; rw [hq]; exact hmem q
  · rw [hq]; exact List.filter_sublist _
  · unfold countQuestions
    rw [hq]
    simp only [Nat.cast_eq_zero, List.countP_eq_zero]
    intro a ha
    simpa using ((hmem a).1 ha).2
  · unfold getQuestionsByModule
    rw [hq, List.filter_eq_nil_iff]
    intro a ha
    simpa using ((hmem a).1 ha).2
  · intro ρ'
    obtain ⟨modules', h1, _, h3⟩ := getAvailableModules_sound ρ' (readInput (emit (saveQuestions
      (setQuestions (readInput (readInput w).2).2 (w.quizData.Questions.filter
          (fun q => !(decide (q.Category = c ∧ q.Module = m))))))
      (Event.message "Module removed successfully!"))).2
    refine ⟨modules', h1, ?_⟩
    intro hin
    unfold GoMap.getD at hin
    cases hg : modules'.get? c with
    | none => simp [hg] at hin
    | some mods =>
      rw [hg] at hin
      obtain ⟨q, hq1, hq2, hq3⟩ := h3 c mods hg m hin
      rw [hq] at hq1
      exact ((hmem q).1 hq1).2 ⟨hq2, hq3⟩

/-- C7 on a bank of three questions in two modules, where module number 1
    (Cisco/CCNA) is selected and confirmed with "yes". -/
theorem removeModule_removes_exactly_witness :
    selectedModule RangeOrder.stored (removeSession "yes") = some ("Cisco", "CCNA") ∧
    ToLower latin1 (confirmationLine (removeSession "yes")) = "yes" ∧
    ((removeSession "yes").quizData.Questions.filter
      (fun q => !(decide (q.Category = "Cisco" ∧ q.Module = "CCNA")))).map Question.ID =
      ["pt1", "pt2"] ∧
    ∃ w', removeModule latin1 RangeOrder.stored (removeSession "yes") = some w' ∧
      w'.quizData.Questions = (removeSession "yes").quizData.Questions.filter
        (fun q => !(decide (q.Category = "Cisco" ∧ q.Module = "CCNA"))) ∧
      countQuestions w' "Cisco" "CCNA" = 0 := by
  refine ⟨by decide, by decide, by decide, ?_⟩
  obtain ⟨w', h1, h2, _, _, _, h6, _⟩ :=
    removeModule_removes_exactly latin1 RangeOrder.stored (removeSession "yes") "Cisco" "CCNA"
      (by decide) (by decide)
  exact ⟨w', h1, h2, h6⟩

/-- C8, as stated, fails: in `removeModule` the confirmation input "YES", which is
    not "yes", does not cancel: the questions of the selected module are deleted. -/
theorem uppercase_yes_confirms_removal :
    confirmationLine (removeSession "YES") = "YES" ∧
    confirmationLine (removeSession "YES") ≠ "yes" ∧
    (removeModule latin1 RangeOrder.stored (removeSession "YES")).map
      (fun w => w.quizData.Questions.map Question.ID) = some ["pt1", "pt2"] ∧
    (removeSession "YES").quizData.Questions.map Question.ID = ["pt1", "ccna1", "pt2"] := by
  decide

/-- C8, amended: a destructive admin operation mutates only on its confirmation.  In
    `removeModule`, whenever the confirmation line, trimmed and lower-cased, is not
    "yes", the call returns with the question list and `questions.json` unchanged; in
    `manageUsers`, whenever the confirmation line, trimmed, is not the literal token
    "DELETE", the user list is unchanged.  Nothing else of the stored state changes
    either. -/
theorem destructive_operations_need_confirmation (τ : CaseTable) (ρ : RangeOrder) (w : World) :
    (ToLower τ (confirmationLine w) ≠ "yes" →
      ∃ w', removeModule τ ρ w = some w' ∧ w'.quizData = w.quizData ∧
        w'.questionsFile = w.questionsFile ∧ w'.usersFile = w.usersFile ∧
        w'.currentUser = w.currentUser ∧ w'.adminConfig = w.adminConfig ∧
        w'.adminFile = w.adminFile) ∧
    (deletionConfirmation w ≠ "DELETE" →
      (manageUsers w).usersFile = w.usersFile ∧ (manageUsers w).currentUser = w.currentUser ∧
      (manageUsers w).quizData = w.quizData ∧
      (manageUsers w).questionsFile = w.questionsFile ∧
      (manageUsers w).adminConfig = w.adminConfig ∧ (manageUsers w).adminFile = w.adminFile) :=
  ⟨removeModule_unconfirmed τ ρ w, manageUsers_unconfirmed w⟩

/-- C8 where the removal is answered "no" and the deletion is answered "delete". -/
theorem destructive_operations_need_confirmation_witness :
    ToLower latin1 (confirmationLine (removeSession "no")) ≠ "yes" ∧
    (∃ w', removeModule latin1 RangeOrder.stored (removeSession "no") = some w' ∧
      w'.quizData = (removeSession "no").quizData) ∧
    deletionConfirmation (deletionSession "delete") ≠ "DELETE" ∧
    (manageUsers (deletionSession "delete")).usersFile = (deletionSession "delete").usersFile :=
  ⟨by decide,
   (((destructive_operations_need_confirmation latin1 RangeOrder.stored (removeSession "no")).1
      (by decide)).imp fun _ h => ⟨h.1, h.2.1⟩),
   by decide,
   ((destructive_operations_need_confirmation latin1 RangeOrder.stored (deletionSession "delete")).2
      (by decide)).1⟩

/-- C9, as stated, fails: the typed line "admin123 " differs from the stored
    password "admin123" (only in white space), and access is granted. -/
theorem trailing_space_is_granted :
    (gateSession "admin123 ").stdin.headD "" ≠ (gateSession "admin123 ").adminConfig.Password ∧
    (adminPanel latin1 RangeOrder.stored (gateSession "admin123 ") 1).map (fun w => w.out) =
      some [Event.message "Access Granted!"] := by
  decide

/-- C9, amended: the admin gate compares the typed line, with its leading and trailing
    white space trimmed, to the stored password by exact string equality.  When they
    are equal access is granted and the admin menu runs; when they differ (as for a
    line that differs in letter case or in inner white space) access is denied: the
    call returns at once, having only consumed two lines and printed the denial. -/
theorem admin_gate_compares_trimmed_line (τ : CaseTable) (ρ : RangeOrder) (w : World)
    (fuel : Nat) :
    (TrimSpace (w.stdin.headD "") = w.adminConfig.Password →
      adminPanel τ ρ w fuel =
        adminMenu τ ρ fuel (emit (readInput w).2 (Event.message "Access Granted!"))) ∧
    (TrimSpace (w.stdin.headD "") ≠ w.adminConfig.Password →
      ∃ w', adminPanel τ ρ w fuel = some w' ∧
        w'.out = w.out ++ [Event.message "Access Denied! Incorrect password."] ∧
        w'.stdin = w.stdin.drop 2 ∧
        w'.quizData = w.quizData ∧ w'.questionsFile = w.questionsFile ∧
        w'.usersFile = w.usersFile ∧ w'.currentUser = w.currentUser ∧
        w'.adminConfig = w.adminConfig ∧ w'.adminFile = w.adminFile) := by
  constructor
  · intro h
    simp only [adminPanel, readInput, ne_eq, h, not_true_eq_false, if_false]
  · intro h
    refine ⟨(readInput (emit (readInput w).2
      (Event.message "Access Denied! Incorrect password."))).2, ?_, ?_⟩
    · simp only [adminPanel, readInput, ne_eq, h, not_false_eq_true, if_true]
    · simp [readInput, emit, tail_tail_eq_drop]

/-- C9 on the default password "admin123": the line "ADMIN123" is denied, and the
    line " admin123" (with a leading space) reaches the admin menu. -/
theorem admin_gate_compares_trimmed_line_witness :
    TrimSpace ((gateSession "ADMIN123").stdin.headD "") ≠
      (gateSession "ADMIN123").adminConfig.Password ∧
    (∃ w', adminPanel latin1 RangeOrder.stored (gateSession "ADMIN123") 1 = some w' ∧
      w'.out = [Event.message "Access Denied! Incorrect password."]) ∧
    TrimSpace ((gateSession " admin123").stdin.headD "") =
      (gateSession " admin123").adminConfig.Password ∧
    adminPanel latin1 RangeOrder.stored (gateSession " admin123") 1 =
      adminMenu latin1 RangeOrder.stored 1
        (emit (readInput (gateSession " admin123")).2 (Event.message "Access Granted!")) :=
  ⟨by decide,
   (((admin_gate_compares_trimmed_line latin1 RangeOrder.stored (gateSession "ADMIN123") 1).2
      (by decide)).imp fun _ h => ⟨h.1, h.2.1⟩),
   by decide,
   (admin_gate_compares_trimmed_line latin1 RangeOrder.stored (gateSession " admin123") 1).1
      (by decide)⟩

/-- C10: for every stored user list and every valid 1-based user number `k`, a
    deletion confirmed with DELETE removes exactly the record at position `k`: the
    new list is the old one without that element, one shorter; the records before it
    keep their positions and the records after it move up by one, unchanged; and when
    the ids are distinct the ids afterwards are the ids before minus the id of the
    deleted user.  The current user and the questions are untouched. -/
theorem manageUsers_deletes_exactly (w : World) (k : Nat) (hchoice : (readInput w).1 = "1")
    (hk : deletionNumber w = (k : Int)) (h1 : 1 ≤ k) (h2 : k ≤ w.usersFile.length)
    (hconf : deletionConfirmation w = "DELETE") :
    (manageUsers w).usersFile = w.usersFile.take (k - 1) ++ w.usersFile.drop k ∧
    (manageUsers w).usersFile = w.usersFile.eraseIdx (k - 1) ∧
    (manageUsers w).usersFile.length + 1 = w.usersFile.length ∧
    (∀ j, j < k - 1 → (manageUsers w).usersFile[j]? = w.usersFile[j]?) ∧
    (∀ j, k - 1 ≤ j → (manageUsers w).usersFile[j]? = w.usersFile[j + 1]?) ∧
    List.Sublist (manageUsers w).usersFile w.usersFile ∧
    (idsDistinct w → ∃ deleted, w.usersFile[k - 1]? = some deleted ∧
      ∀ userID, userID ∈ storedIDs (manageUsers w) ↔
        userID ∈ storedIDs w ∧ userID ≠ deleted.ID) ∧
    (manageUsers w).currentUser = w.currentUser ∧ (manageUsers w).quizData = w.quizData := by
  have heq := manageUsers_confirmed w k hchoice hk h1 h2 hconf
  have hfile : (manageUsers w).usersFile = w.usersFile.take (k - 1) ++ w.usersFile.drop k := by
    rw [heq]; rfl
  have herase : (manageUsers w).usersFile = w.usersFile.eraseIdx (k - 1) := by
    rw [hfile, List.eraseIdx_eq_take_drop_succ, show k - 1 + 1 = k by omega]
  refine ⟨hfile, herase, ?_, ?_, ?_, ?_, ?_, by rw [heq]; rfl, by rw [heq]; rfl⟩
  · rw [herase, List.length_eraseIdx_of_lt (by omega)]
    omega
  · intro j hj
    rw [herase, List.getElem?_eraseIdx_of_lt _ _ _ hj]
  · intro j hj
    rw [herase, List.getElem?_eraseIdx_of_ge _ _ _ hj]
  · rw [herase]; exact List.eraseIdx_sublist _ _
  · intro hd
    have hlt : k - 1 < w.usersFile.length := by omega
    refine ⟨w.usersFile[k - 1], List.getElem?_eq_getElem hlt, ?_⟩
    intro userID
    unfold idsDistinct at hd
    have hlt2 : k - 1 < (storedIDs w).length := by simpa [storedIDs, loadAllUsers] using hlt
    have hids : storedIDs (manageUsers w) = (storedIDs w).erase (storedIDs w)[k - 1] := by
      rw [List.Nodup.erase_getElem hd (k - 1) hlt2]
      simp only [storedIDs, loadAllUsers, hfile, List.eraseIdx_eq_take_drop_succ,
        List.map_append, List.map_take, List.map_drop, show k - 1 + 1 = k by omega]
    have hget : (storedIDs w)[k - 1] = (w.usersFile[k - 1]).ID := by
      simp [storedIDs, loadAllUsers]
    rw [hids, List.Nodup.mem_erase_iff hd, hget]
    exact ⟨fun h => ⟨h.2, h.1⟩, fun h => ⟨h.2, h.1⟩⟩

/-- C10 on the store with ids alice1 and alice3, where user number 2 is deleted. -/
theorem manageUsers_deletes_exactly_witness :
    (readInput (deletionSession "DELETE")).1 = "1" ∧
    deletionNumber (deletionSession "DELETE") = ((2 : Nat) : Int) ∧
    deletionConfirmation (deletionSession "DELETE") = "DELETE" ∧
    (manageUsers (deletionSession "DELETE")).usersFile =
      (deletionSession "DELETE").usersFile.take 1 ++ (deletionSession "DELETE").usersFile.drop 2 ∧
    storedIDs (manageUsers (deletionSession "DELETE")) = ["alice1"] :=
  ⟨by decide, by decide, by decide,
   (manageUsers_deletes_exactly (deletionSession "DELETE") 2 (by decide) (by decide)
      (by decide) (by decide) (by decide)).1,
   by decide⟩

/-! ## Adding a question -/

theorem enteredLine_readInput (w : World) (i : Nat) :
    enteredLine (readInput w).2 i = enteredLine w (i + 1) := by
  simp [enteredLine, readInput, ← List.drop_one, List.drop_drop, Nat.add_comm]

theorem readInput_fst (w : World) : (readInput w).1 = enteredLine w 0 := by
  simp [enteredLine, readInput]

theorem readInput_frame (w : World) :
    (readInput w).2.quizData = w.quizData ∧ (readInput w).2.clock = w.clock ∧
    (readInput w).2.questionsFile = w.questionsFile ∧ (readInput w).2.usersFile = w.usersFile ∧
    (readInput w).2.currentUser = w.currentUser ∧ (readInput w).2.adminConfig = w.adminConfig ∧
    (readInput w).2.adminFile = w.adminFile ∧ (readInput w).2.out = w.out :=
  ⟨rfl, rfl, rfl, rfl, rfl, rfl, rfl, rfl⟩

theorem wrapInt_pred_of_range (t : Int) (ht : minInt ≤ t ∧ t ≤ maxInt) :
    (wrapInt (t - 1) < 0 ∨ wrapInt (t - 1) > 3) ↔ ¬ (1 ≤ t ∧ t ≤ 4) := by
  unfold wrapInt
  unfold minInt maxInt at ht
  omega

theorem wrapInt_pred_of_valid (t : Int) (ht : 1 ≤ t ∧ t ≤ 4) : wrapInt (t - 1) = t - 1 := by
  unfold wrapInt
  omega

theorem addNewQuestion_rejected (w : World) (h : ¬ (1 ≤ enteredAnswer w ∧ enteredAnswer w ≤ 4)) :
    (addNewQuestion w).quizData = w.quizData ∧
    (addNewQuestion w).questionsFile = w.questionsFile ∧
    (addNewQuestion w).usersFile = w.usersFile ∧
    (addNewQuestion w).currentUser = w.currentUser ∧
    (addNewQuestion w).adminConfig = w.adminConfig ∧
    (addNewQuestion w).clock = w.clock := by
  have hw := (wrapInt_pred_of_range (enteredAnswer w) (Sscanf_range _)).2 h
  unfold enteredAnswer at hw
  simp only [← enteredLine_readInput, ← readInput_fst] at hw
  unfold addNewQuestion
  simp only [if_pos hw]
  simp [readInput, emit]

theorem addNewQuestion_accepted (w : World) (h : 1 ≤ enteredAnswer w ∧ enteredAnswer w ≤ 4) :
    addNewQuestion w = (readInput (emit (saveQuestions (setQuestions
      (timeNow (readInput (readInput (readInput (readInput (readInput (readInput (readInput
        (readInput w).2).2).2).2).2).2).2).2).2
      (w.quizData.Questions ++ [enteredQuestion w])))
      (Event.message "Question added successfully!"))).2 := by
  have hw : ¬ (wrapInt (enteredAnswer w - 1) < 0 ∨ wrapInt (enteredAnswer w - 1) > 3) :=
    fun hc => (wrapInt_pred_of_range (enteredAnswer w) (Sscanf_range _)).1 hc h
  have hv := wrapInt_pred_of_valid (enteredAnswer w) h
  unfold enteredAnswer at hw hv
  simp only [← enteredLine_readInput, ← readInput_fst] at hw hv
  unfold addNewQuestion
  simp only [if_neg hw]
  simp only [hv]
  simp only [enteredQuestion, enteredAnswer, ← enteredLine_readInput, ← readInput_fst,
    setQuestions, timeNow, (readInput_frame _).1, (readInput_frame _).2.1]

theorem addNewQuestion_accepted_questions (w : World)
    (h : 1 ≤ enteredAnswer w ∧ enteredAnswer w ≤ 4) :
    (addNewQuestion w).quizData.Questions = w.quizData.Questions ++ [enteredQuestion w] ∧
    (addNewQuestion w).questionsFile = (addNewQuestion w).quizData ∧
    (addNewQuestion w).usersFile = w.usersFile ∧
    (addNewQuestion w).currentUser = w.currentUser ∧
    (addNewQuestion w).adminConfig = w.adminConfig ∧
    (addNewQuestion w).clock = w.clock.tail := by
  rw [addNewQuestion_accepted w h]
  simp [readInput, emit, saveQuestions, setQuestions, timeNow]

/-! ## Claims on adding questions -/

/-- C11, as stated, fails: the answer line "4x" is not a number, yet `Sscanf` reads
    its leading 4 and the add is not aborted: the question is appended to the list
    and written to `questions.json`, with answer index 3. -/
theorem answer_with_trailing_text_is_accepted :
    enteredLine (addSession "4x") 7 = "4x" ∧
    "4x".data.all Char.isDigit = false ∧
    enteredAnswer (addSession "4x") = 4 ∧
    (addSession "4x").quizData.Questions = [] ∧
    (addNewQuestion (addSession "4x")).quizData.Questions =
      [enteredQuestion (addSession "4x")] ∧
    (addNewQuestion (addSession "4x")).questionsFile.Questions =
      [enteredQuestion (addSession "4x")] ∧
    (enteredQuestion (addSession "4x")).Options = ["A", "B", "C", "D"] ∧
    (enteredQuestion (addSession "4x")).Answer = 3 := by
  have h := addNewQuestion_accepted_questions (addSession "4x") (by decide)
  refine ⟨by decide, by decide, by decide, by decide, h.1, ?_, by decide, by decide⟩
  rw [h.2.1]
  exact h.1

/-- C11, amended: `addNewQuestion` validates the number that `Sscanf` reads from the
    answer line with `%d`: an optional sign and the leading decimal digits are read
    and the rest of the line is ignored; when no number can be read this way, or it
    does not fit in 64 bits, the scan fails and the value stays 0.  For every question
    list, when the number read is outside 1-4, in particular when the scan fails, the
    add is aborted and the question list (and `questions.json`) is unchanged; when it
    is in 1-4, exactly one question is appended at the end, holding the four entered
    options and the zero-based answer index (the number read minus one), which lies
    in 0..3, and every earlier question keeps its position. -/
theorem addNewQuestion_validates_answer (w : World) :
    (¬ (1 ≤ enteredAnswer w ∧ enteredAnswer w ≤ 4) →
      (addNewQuestion w).quizData = w.quizData ∧
      (addNewQuestion w).questionsFile = w.questionsFile) ∧
    (scanInt (enteredLine w 7) = none →
      (addNewQuestion w).quizData = w.quizData ∧
      (addNewQuestion w).questionsFile = w.questionsFile) ∧
    (1 ≤ enteredAnswer w ∧ enteredAnswer w ≤ 4 →
      (addNewQuestion w).quizData.Questions = w.quizData.Questions ++ [enteredQuestion w] ∧
      (addNewQuestion w).questionsFile = (addNewQuestion w).quizData ∧
      (addNewQuestion w).quizData.Questions.length = w.quizData.Questions.length + 1 ∧
      (∀ j, j < w.quizData.Questions.length →
        (addNewQuestion w).quizData.Questions[j]? = w.quizData.Questions[j]?) ∧
      (addNewQuestion w).quizData.Questions[w.quizData.Questions.length]? =
        some (enteredQuestion w) ∧
      (enteredQuestion w).Options =
        [enteredLine w 3, enteredLine w 4, enteredLine w 5, enteredLine w 6] ∧
      (enteredQuestion w).Options.length = 4 ∧
      (enteredQuestion w).Answer = enteredAnswer w - 1 ∧
      0 ≤ (enteredQuestion w).Answer ∧ (enteredQuestion w).Answer ≤ 3 ∧
      validAnswer (enteredQuestion w)) := by
  refine ⟨fun h => ⟨(addNewQuestion_rejected w h).1, (addNewQuestion_rejected w h).2.1⟩, ?_, ?_⟩
  · intro hscan
    have h0 : enteredAnswer w = 0 := Sscanf_of_scan_fails _ hscan
    have h : ¬ (1 ≤ enteredAnswer w ∧ enteredAnswer w ≤ 4) := by omega
    exact ⟨(addNewQuestion_rejected w h).1, (addNewQuestion_rejected w h).2.1⟩
  · intro h
    obtain ⟨h1, h2, -⟩ := addNewQuestion_accepted_questions w h
    refine ⟨h1, h2, by rw [h1]; simp, ?_, ?_, rfl, rfl, rfl, ?_, ?_, ?_⟩
    · intro j hj
      rw [h1, List.getElem?_append_left hj]
    · rw [h1]
      simp
    · show 0 ≤ enteredAnswer w - 1
      omega
    · show enteredAnswer w - 1 ≤ 3
      omega
    · refine ⟨?_, ?_, ?_⟩
      · show 0 ≤ enteredAnswer w - 1
        omega
      · show enteredAnswer w - 1 < ((4 : Nat) : Int)
        omega
      · show ((4 : Nat) : Int) ≤ maxInt
        decide

/-- C11, amended, for the answer lines "3" (accepted, index 2), "2nd" (read as 2,
    accepted, index 1), "5" (out of range) and "two" (the scan fails). -/
theorem addNewQuestion_validates_answer_witness :
    (1 ≤ enteredAnswer (addSession "3") ∧ enteredAnswer (addSession "3") ≤ 4) ∧
    (addNewQuestion (addSession "3")).quizData.Questions =
      (addSession "3").quizData.Questions ++ [enteredQuestion (addSession "3")] ∧
    (enteredQuestion (addSession "3")).Answer = 2 ∧
    (1 ≤ enteredAnswer (addSession "2nd") ∧ enteredAnswer (addSession "2nd") ≤ 4) ∧
    (addNewQuestion (addSession "2nd")).quizData.Questions =
      (addSession "2nd").quizData.Questions ++ [enteredQuestion (addSession "2nd")] ∧
    (enteredQuestion (addSession "2nd")).Answer = 1 ∧
    ¬ (1 ≤ enteredAnswer (addSession "5") ∧ enteredAnswer (addSession "5") ≤ 4) ∧
    (addNewQuestion (addSession "5")).quizData = (addSession "5").quizData ∧
    scanInt (enteredLine (addSession "two") 7) = none ∧
    (addNewQuestion (addSession "two")).quizData = (addSession "two").quizData :=
  ⟨by decide,
   ((addNewQuestion_validates_answer (addSession "3")).2.2 (by decide)).1,
   by decide, by decide,
   ((addNewQuestion_validates_answer (addSession "2nd")).2.2 (by decide)).1,
   by decide, by decide,
   ((addNewQuestion_validates_answer (addSession "5")).1 (by decide)).1,
   by decide,
   ((addNewQuestion_validates_answer (addSession "two")).2.1 (by decide)).1⟩

/-! ## Menus and unrecognized input -/

theorem afterInvalidChoice_frame (w : World) :
    (afterInvalidChoice w).currentUser = w.currentUser ∧
    (afterInvalidChoice w).usersFile = w.usersFile ∧
    (afterInvalidChoice w).quizData = w.quizData ∧
    (afterInvalidChoice w).questionsFile = w.questionsFile ∧
    (afterInvalidChoice w).adminConfig = w.adminConfig ∧
    (afterInvalidChoice w).adminFile = w.adminFile ∧
    (afterInvalidChoice w).clock = w.clock ∧
    (afterInvalidChoice w).stdin = w.stdin.drop 2 ∧
    (afterInvalidChoice w).out =
      w.out ++ [Event.message "Invalid choice. Press Enter to continue..."] := by
  simp [afterInvalidChoice, readInput, emit, tail_tail_eq_drop]

theorem showMainMenu_invalid (τ : CaseTable) (ρ : RangeOrder) (w : World) (fuel : Nat)
    (u : User)
    (hu : w.currentUser = some u)
    (h : enteredLine w 0 ≠ "1" ∧ enteredLine w 0 ≠ "2" ∧ enteredLine w 0 ≠ "3" ∧
      enteredLine w 0 ≠ "4" ∧ enteredLine w 0 ≠ "5") :
    showMainMenu τ ρ w fuel = some (Outcome.returned (afterInvalidChoice w)) := by
  obtain ⟨h1, h2, h3, h4, h5⟩ := h
  rw [← readInput_fst] at h1 h2 h3 h4 h5
  unfold showMainMenu
  simp only [hu, if_neg h1, if_neg h2, if_neg h3, if_neg h4, if_neg h5]
  rfl

theorem adminMenu_invalid (τ : CaseTable) (ρ : RangeOrder) (w : World) (fuel : Nat)
    (h : enteredLine w 0 ≠ "1" ∧ enteredLine w 0 ≠ "2" ∧ enteredLine w 0 ≠ "3" ∧
      enteredLine w 0 ≠ "4" ∧ enteredLine w 0 ≠ "5" ∧ enteredLine w 0 ≠ "6" ∧
      enteredLine w 0 ≠ "7" ∧ enteredLine w 0 ≠ "8") :
    adminMenu τ ρ (fuel + 1) w = adminMenu τ ρ fuel (afterInvalidChoice w) := by
  obtain ⟨h1, h2, h3, h4, h5, h6, h7, h8⟩ := h
  rw [← readInput_fst] at h1 h2 h3 h4 h5 h6 h7 h8
  rw [adminMenu]
  simp only [if_neg h1, if_neg h2, if_neg h3, if_neg h4, if_neg h5, if_neg h6, if_neg h7,
    if_neg h8]
  rfl

theorem userLogin_invalid (τ : CaseTable) (w : World) (fuel : Nat)
    (h : enteredLine w 0 ≠ "1" ∧ enteredLine w 0 ≠ "2") :
    userLogin τ w fuel = createNewUser τ
      (emit (readInput w).2 (Event.message "Invalid choice. Creating new user...")) fuel := by
  obtain ⟨h1, h2⟩ := h
  rw [← readInput_fst] at h1 h2
  unfold userLogin
  simp only [if_neg h1, if_neg h2]

theorem createNewUser_appends (τ : CaseTable) (w w' : World) (fuel : Nat)
    (h : createNewUser τ w fuel = some w') :
    ∃ userID, userID ∉ storedIDs w ∧ storedIDs w' = storedIDs w ++ [userID] ∧
      currentID w' = some userID := by
  unfold createNewUser at h
  simp only at h
  split at h
  · simp at h
  · rename_i userID hgen
    have hfree := generateUserIDLoop_free _ _ _ _ _ hgen
    have hnot : userID ∉ storedIDs w := by
      intro hmem
      obtain ⟨v, hv, hvid⟩ := List.mem_map.1 hmem
      have : idExists (loadAllUsers (readInput w).2) userID = true :=
        (idExists_iff _ _).2 ⟨v, hv, hvid⟩
      rw [this] at hfree
      exact Bool.noConfusion hfree
    rw [saveUser_fresh _ _ rfl (by simpa [storedIDs, loadAllUsers, readInput, timeNow] using hnot)]
      at h
    simp only [Option.some.injEq] at h
    subst h
    exact ⟨userID, hnot, by simp [storedIDs, loadAllUsers, readInput, timeNow, emit],
      by simp [currentID, readInput, timeNow, emit]⟩

/-! ## Question ids -/

theorem questionID_injective {a b : Nat} (h : "q" ++ Nat.repr a = "q" ++ Nat.repr b) : a = b := by
  have h2 := congrArg String.data h
  simp only [String.data_append, List.append_cancel_left_eq] at h2
  exact repr_injective (String.ext h2)

theorem addNewQuestion_ids (w : World) (h : 1 ≤ enteredAnswer w ∧ enteredAnswer w ≤ 4) :
    questionIDs (addNewQuestion w) =
      questionIDs w ++ ["q" ++ Nat.repr (Time.Unix (w.clock.headD 0))] := by
  unfold questionIDs
  rw [(addNewQuestion_accepted_questions w h).1]
  simp [enteredQuestion]

theorem addNewQuestion_keeps_ids_distinct (w : World)
    (h : 1 ≤ enteredAnswer w ∧ enteredAnswer w ≤ 4) (hd : questionIDsDistinct w)
    (hfresh : "q" ++ Nat.repr (Time.Unix (w.clock.headD 0)) ∉ questionIDs w) :
    questionIDsDistinct (addNewQuestion w) := by
  unfold questionIDsDistinct at *
  rw [addNewQuestion_ids w h]
  exact List.Nodup.append hd (List.nodup_singleton _) (by simpa using hfresh)

/-! ## Claims on the menus -/

/-- C12, as stated, fails at the login choice: the unrecognized input "x" does not
    leave the machine where it was, a new user is registered from the next line (here
    bob1) and becomes the current user. -/
theorem login_choice_is_not_a_self_loop :
    enteredLine (loginSession "x") 0 = "x" ∧
    storedIDs (loginSession "x") = [] ∧ currentID (loginSession "x") = none ∧
    (userLogin latin1 (loginSession "x") 1).map storedIDs = some ["bob1"] ∧
    (userLogin latin1 (loginSession "x") 1).map currentID = some (some "bob1") := by
  decide

/-- C12, amended: in the main menu and in the admin panel an unrecognized input is a
    self-loop: the call prints the error, reads the "press Enter" line and the menu is
    read again, with the same current user, stored users, questions, admin config and
    files (only two lines of input are consumed and the error is logged).  At the
    login choice an unrecognized input is not a self-loop: the program goes on to
    new-user registration, which (given enough rounds for the id search) returns
    with one more stored user, who is the current user. -/
theorem menus_on_unrecognized_input (τ : CaseTable) (ρ : RangeOrder) (w : World) (fuel : Nat) :
    (∀ u, w.currentUser = some u →
      enteredLine w 0 ≠ "1" ∧ enteredLine w 0 ≠ "2" ∧ enteredLine w 0 ≠ "3" ∧
        enteredLine w 0 ≠ "4" ∧ enteredLine w 0 ≠ "5" →
      showMainMenu τ ρ w fuel = some (Outcome.returned (afterInvalidChoice w)) ∧
      ∀ rounds, mainLoop τ ρ fuel (rounds + 1) w =
        mainLoop τ ρ fuel rounds (afterInvalidChoice w)) ∧
    (enteredLine w 0 ≠ "1" ∧ enteredLine w 0 ≠ "2" ∧ enteredLine w 0 ≠ "3" ∧
        enteredLine w 0 ≠ "4" ∧ enteredLine w 0 ≠ "5" ∧ enteredLine w 0 ≠ "6" ∧
        enteredLine w 0 ≠ "7" ∧ enteredLine w 0 ≠ "8" →
      adminMenu τ ρ (fuel + 1) w = adminMenu τ ρ fuel (afterInvalidChoice w)) ∧
    ((afterInvalidChoice w).currentUser = w.currentUser ∧
      (afterInvalidChoice w).usersFile = w.usersFile ∧
      (afterInvalidChoice w).quizData = w.quizData ∧
      (afterInvalidChoice w).questionsFile = w.questionsFile ∧
      (afterInvalidChoice w).adminConfig = w.adminConfig ∧
      (afterInvalidChoice w).adminFile = w.adminFile ∧
      (afterInvalidChoice w).clock = w.clock ∧
      (afterInvalidChoice w).stdin = w.stdin.drop 2 ∧
      (afterInvalidChoice w).out =
        w.out ++ [Event.message "Invalid choice. Press Enter to continue..."]) ∧
    (enteredLine w 0 ≠ "1" ∧ enteredLine w 0 ≠ "2" →
      userLogin τ w fuel = createNewUser τ
        (emit (readInput w).2 (Event.message "Invalid choice. Creating new user...")) fuel ∧
      (w.usersFile.length < fuel → ∃ w', userLogin τ w fuel = some w') ∧
      ∀ w', userLogin τ w fuel = some w' →
        ∃ userID, userID ∉ storedIDs w ∧ storedIDs w' = storedIDs w ++ [userID] ∧
          currentID w' = some userID) := by
  refine ⟨?_, adminMenu_invalid τ ρ w fuel, afterInvalidChoice_frame w, ?_⟩
  · intro u hu h
    have hs := showMainMenu_invalid τ ρ w fuel u hu h
    refine ⟨hs, ?_⟩
    intro rounds
    rw [mainLoop, hs]
  · intro h
    have hl := userLogin_invalid τ w fuel h
    refine ⟨hl, ?_, ?_⟩
    · intro hf
      rw [hl]
      exact createNewUser_some τ _ fuel (by simpa [loadAllUsers, emit, readInput] using hf)
    · intro w' hw'
      rw [hl] at hw'
      obtain ⟨userID, h1, h2, h3⟩ := createNewUser_appends τ _ w' fuel hw'
      exact ⟨userID, by simpa [storedIDs, loadAllUsers, emit, readInput] using h1,
        by simpa [storedIDs, loadAllUsers, emit, readInput] using h2, h3⟩

/-- C12 on the main menu with choice "9", the admin menu with choice "help" and the
    login choice "x". -/
theorem menus_on_unrecognized_input_witness :
    (enteredLine (menuSession "9" "5") 0 ≠ "1" ∧ enteredLine (menuSession "9" "5") 0 ≠ "2" ∧
      enteredLine (menuSession "9" "5") 0 ≠ "3" ∧ enteredLine (menuSession "9" "5") 0 ≠ "4" ∧
      enteredLine (menuSession "9" "5") 0 ≠ "5") ∧
    showMainMenu latin1 RangeOrder.stored (menuSession "9" "5") 1 =
      some (Outcome.returned (afterInvalidChoice (menuSession "9" "5"))) ∧
    (afterInvalidChoice (menuSession "9" "5")).stdin = ["5"] ∧
    adminMenu latin1 RangeOrder.stored 2 (menuSession "help" "8") =
      adminMenu latin1 RangeOrder.stored 1 (afterInvalidChoice (menuSession "help" "8")) ∧
    (enteredLine (loginSession "x") 0 ≠ "1" ∧ enteredLine (loginSession "x") 0 ≠ "2") ∧
    (∃ w', userLogin latin1 (loginSession "x") 1 = some w') :=
  ⟨by decide,
   ((menus_on_unrecognized_input latin1 RangeOrder.stored (menuSession "9" "5") 1).1 _ rfl
      (by decide)).1,
   by decide,
   (menus_on_unrecognized_input latin1 RangeOrder.stored (menuSession "help" "8") 1).2.1 (by decide),
   by decide,
   ((menus_on_unrecognized_input latin1 RangeOrder.stored (loginSession "x") 1).2.2.2
      (by decide)).2.1 (by decide)⟩

/-! ## The derived module view is exact -/

namespace GoMap
variable {V : Type}

theorem getD_set_self (m m' : GoMap V) (k : String) (v z : V) (h : m.set k v = some m') :
    m'.getD k z = v := by
  simp [getD, get?_set_self m m' k v h]

theorem getD_set_other (m m' : GoMap V) (k k' : String) (v z : V) (h : m.set k v = some m')
    (hne : k' ≠ k) : m'.getD k' z = m.getD k' z := by
  simp [getD, get?_set_other m m' k k' v h hne]

theorem keys_nodup_set (m m' : GoMap V) (k : String) (v : V) (h : m.set k v = some m')
    (hn : m.keys.Nodup) : m'.keys.Nodup := by
  rw [keys_set m m' k v h, List.nodup_cons]
  refine ⟨?_, hn.filter _⟩
  simp [List.mem_filter]

theorem keys_of_isNil (m : GoMap V) (h : m.isNil = true) : m.keys = [] := by
  cases m with
  | nil => rfl
  | mk l => simp [isNil] at h

theorem get?_eq_none_of_not_mem_keys (m : GoMap V) (k : String) (h : k ∉ m.keys) :
    m.get? k = none := by
  unfold get? keys at *
  generalize m.bindings = l at h
  induction l with
  | nil => rfl
  | cons p l ih =>
    obtain ⟨a, v⟩ := p
    simp only [List.map_cons, List.mem_cons, not_or] at h
    have hb : (k == a) = false := by simpa using h.1
    simp only [List.lookup, hb]
    exact ih h.2

end GoMap

theorem order_nil (ρ : RangeOrder) : ρ.order [] = [] := (ρ.perm []).eq_nil

theorem collectModules_pairs : ∀ (qs : List Question) (modules : GoMap (GoMap Bool)),
    ModulesWF modules →
    ∃ modules', collectModules qs modules = some modules' ∧ ModulesWF modules' ∧
      ∀ c m, m ∈ (modules'.getD c GoMap.nil).keys ↔
        (m ∈ (modules.getD c GoMap.nil).keys ∨ ∃ q ∈ qs, q.Category = c ∧ q.Module = m) := by
  intro qs
  induction qs with
  | nil => intro modules h; exact ⟨modules, rfl, h, by simp⟩
  | cons q rest ih =>
    intro modules hwf
    have step1 : ∃ m1,
        (if (modules.getD q.Category GoMap.nil).isNil then modules.set q.Category GoMap.make
          else some modules) = some m1 ∧ ModulesWF m1 ∧
        (m1.getD q.Category GoMap.nil).isNil = false ∧
        ∀ c, (m1.getD c GoMap.nil).keys = (modules.getD c GoMap.nil).keys := by
      by_cases hnil : (modules.getD q.Category GoMap.nil).isNil = true
      · obtain ⟨m1, hm1⟩ := GoMap.set_of_not_nil modules q.Category GoMap.make hwf.1
        have hself := GoMap.getD_set_self modules m1 q.Category GoMap.make GoMap.nil hm1
        have hkeys : ∀ c, (m1.getD c GoMap.nil).keys = (modules.getD c GoMap.nil).keys := by
          intro c
          by_cases e : c = q.Category
          · subst e
            rw [hself, GoMap.keys_of_isNil _ hnil]
            rfl
          · rw [GoMap.getD_set_other modules m1 q.Category c GoMap.make GoMap.nil hm1 e]
        refine ⟨m1, by rw [if_pos hnil, hm1], ⟨GoMap.isNil_of_set _ _ _ _ hm1,
          GoMap.keys_nodup_set _ _ _ _ hm1 hwf.2.1, ?_⟩, by rw [hself]; rfl, hkeys⟩
        intro c
        rw [hkeys c]
        exact hwf.2.2 c
      · simp only [Bool.not_eq_true] at hnil
        exact ⟨modules, by simp [hnil], hwf, hnil, fun _ => rfl⟩
    obtain ⟨m1, h1, hwf1, hnn, hkeys1⟩ := step1
    obtain ⟨mods, hmods⟩ :=
      GoMap.set_of_not_nil (m1.getD q.Category GoMap.nil) q.Module true hnn
    obtain ⟨m2, hm2⟩ := GoMap.set_of_not_nil m1 q.Category mods hwf1.1
    have hself2 := GoMap.getD_set_self m1 m2 q.Category mods GoMap.nil hm2
    have hwf2 : ModulesWF m2 := by
      refine ⟨GoMap.isNil_of_set _ _ _ _ hm2, GoMap.keys_nodup_set _ _ _ _ hm2 hwf1.2.1, ?_⟩
      intro c
      by_cases e : c = q.Category
      · subst e
        rw [hself2]
        exact GoMap.keys_nodup_set _ _ _ _ hmods (hwf1.2.2 _)
      · rw [GoMap.getD_set_other m1 m2 q.Category c mods GoMap.nil hm2 e]
        exact hwf1.2.2 c
    have hpairs2 : ∀ c m, m ∈ (m2.getD c GoMap.nil).keys ↔
        (m ∈ (modules.getD c GoMap.nil).keys ∨ (q.Category = c ∧ q.Module = m)) := by
      intro c m
      by_cases e : c = q.Category
      · subst e
        rw [hself2, GoMap.mem_keys_set _ _ _ _ hmods m, hkeys1]
        constructor
        · rintro (h | h)
          · exact Or.inr ⟨rfl, h.symm⟩
          · exact Or.inl h
        · rintro (h | ⟨_, h⟩)
          · exact Or.inr h
          · exact Or.inl h.symm
      · rw [GoMap.getD_set_other m1 m2 q.Category c mods GoMap.nil hm2 e, hkeys1]
        constructor
        · exact Or.inl
        · rintro (h | ⟨h, _⟩)
          · exact h
          · exact absurd h.symm e
    obtain ⟨m3, hm3, hwf3, hpairs3⟩ := ih m2 hwf2
    refine ⟨m3, ?_, hwf3, ?_⟩
    · rw [collectModules]
      by_cases hnil : (modules.getD q.Category GoMap.nil).isNil = true
      · rw [if_pos hnil] at h1
        simp [hnil, h1, hmods, hm2, hm3]
      · rw [if_neg hnil] at h1
        cases h1
        simp [hnil, hmods, hm2, hm3]
    · intro c m
      rw [hpairs3 c m, hpairs2 c m]
      simp only [List.mem_cons, exists_eq_or_imp]
      tauto

theorem appendModules_getD (category : String) : ∀ (ms : List String)
    (result : GoMap (List String)), result.isNil = false →
    ∃ result', appendModules category ms result = some result' ∧ result'.isNil = false ∧
      result'.getD category [] = result.getD category [] ++ ms ∧
      (∀ c, c ≠ category → result'.getD c [] = result.getD c []) ∧
      (result.keys.Nodup → result'.keys.Nodup) := by
  intro ms
  induction ms with
  | nil => intro result h; exact ⟨result, rfl, h, by simp, fun _ _ => rfl, fun h => h⟩
  | cons m rest ih =>
    intro result hnn
    obtain ⟨r1, hr1⟩ := GoMap.set_of_not_nil result category
      (result.getD category [] ++ [m]) hnn
    obtain ⟨r2, hr2, hnn2, hself, hother, hkeys⟩ := ih r1 (GoMap.isNil_of_set _ _ _ _ hr1)
    refine ⟨r2, by simp [appendModules, hr1, hr2], hnn2, ?_, ?_,
      fun h => hkeys (GoMap.keys_nodup_set _ _ _ _ hr1 h)⟩
    · rw [hself, GoMap.getD_set_self result r1 category _ [] hr1]
      simp
    · intro c hc
      rw [hother c hc, GoMap.getD_set_other result r1 category c _ [] hr1 hc]

theorem buildResult_getD (ρ : RangeOrder) (modules : GoMap (GoMap Bool)) :
    ∀ (cs : List String) (result : GoMap (List String)), cs.Nodup → result.isNil = false →
    ∃ result', buildResult ρ modules cs result = some result' ∧ result'.isNil = false ∧
      (∀ c, result'.getD c [] = result.getD c [] ++
        (if c ∈ cs then (modules.getD c GoMap.nil).range ρ else [])) ∧
      (result.keys.Nodup → result'.keys.Nodup) := by
  intro cs
  induction cs with
  | nil => intro result _ h; exact ⟨result, rfl, h, by simp, fun h => h⟩
  | cons c0 rest ih =>
    intro result hnd hnn
    rw [List.nodup_cons] at hnd
    obtain ⟨r1, hr1, hnn1, hself, hother, hkeys1⟩ :=
      appendModules_getD c0 ((modules.getD c0 GoMap.nil).range ρ) result hnn
    obtain ⟨r2, hr2, hnn2, hget, hkeys2⟩ := ih r1 hnd.2 hnn1
    refine ⟨r2, by simp [buildResult, hr1, hr2], hnn2, ?_, fun h => hkeys2 (hkeys1 h)⟩
    intro c
    rw [hget c]
    by_cases e : c = c0
    · subst e
      rw [hself, if_neg hnd.1, if_pos (List.mem_cons_self _ _)]
      simp
    · rw [hother c e]
      have : (c ∈ c0 :: rest) = (c ∈ rest) := by simp [e]
      simp only [this]

theorem getAvailableModules_getD (ρ : RangeOrder) (w : World) :
    ∃ modules result, collectModules w.quizData.Questions GoMap.make = some modules ∧
      ModulesWF modules ∧
      (∀ c m, m ∈ (modules.getD c GoMap.nil).keys ↔
        ∃ q ∈ w.quizData.Questions, q.Category = c ∧ q.Module = m) ∧
      getAvailableModules ρ w = some result ∧ result.isNil = false ∧
      result.keys.Nodup ∧
      ∀ c, result.getD c [] = (modules.getD c GoMap.nil).range ρ := by
  have hwf0 : ModulesWF (GoMap.make : GoMap (GoMap Bool)) := by
    refine ⟨rfl, by simp [GoMap.make, GoMap.keys, GoMap.bindings], ?_⟩
    intro c
    simp [GoMap.make, GoMap.getD, GoMap.get?, GoMap.keys, GoMap.bindings]
  obtain ⟨modules, hm, hwf, hpairs⟩ := collectModules_pairs w.quizData.Questions GoMap.make hwf0
  have hnd : (modules.range ρ).Nodup := (ρ.perm modules.keys).nodup_iff.2 hwf.2.1
  obtain ⟨result, hr, hnn, hget, hkeys⟩ :=
    buildResult_getD ρ modules (modules.range ρ) GoMap.make hnd rfl
  refine ⟨modules, result, hm, hwf, ?_, by simp [getAvailableModules, hm, hr], hnn,
    hkeys (by simp [GoMap.make, GoMap.keys, GoMap.bindings]), ?_⟩
  · intro c m
    rw [hpairs c m]
    simp [GoMap.make, GoMap.getD, GoMap.get?, GoMap.keys, GoMap.bindings]
  · intro c
    rw [hget c]
    have h0 : (GoMap.make : GoMap (List String)).getD c [] = [] := by
      simp [GoMap.make, GoMap.getD, GoMap.get?, GoMap.bindings]
    rw [h0, List.nil_append]
    by_cases hc : c ∈ modules.range ρ
    · rw [if_pos hc]
    · rw [if_neg hc]
      have hk : c ∉ modules.keys := fun h => hc ((ρ.perm modules.keys).mem_iff.2 h)
      have hnone := GoMap.get?_eq_none_of_not_mem_keys modules c hk
      simp [GoMap.getD, hnone, GoMap.range, GoMap.keys, GoMap.bindings, order_nil]

theorem listings_eq_count (result : GoMap (List String)) (hn : result.keys.Nodup)
    (c m : String) : listings result c m = (result.getD c []).count m := by
  unfold listings GoMap.getD GoMap.get? GoMap.keys at *
  generalize result.bindings = l at hn
  induction l with
  | nil => simp
  | cons p l ih =>
    obtain ⟨a, v⟩ := p
    simp only [List.map_cons, List.nodup_cons] at hn
    by_cases e : a = c
    · subst e
      have hb : (a == a) = true := by simp
      have hrest : l.filter (fun p => decide (p.1 = a)) = [] := by
        rw [List.filter_eq_nil_iff]
        intro p hp hpa
        simp only [decide_eq_true_eq] at hpa
        exact hn.1 (List.mem_map.2 ⟨p, hp, hpa⟩)
      simp [List.filter, List.lookup, hrest]
    · have hb : (c == a) = false := by simpa using fun h : c = a => e h.symm
      have hd : decide (a = c) = false := by simpa using e
      simp only [List.filter, hd, List.lookup, hb]
      exact ih hn.2

theorem getAvailableModules_exact (ρ : RangeOrder) (w : World) :
    ∃ result, getAvailableModules ρ w = some result ∧
      ∀ c m,
        (m ∈ result.getD c [] ↔ ∃ q ∈ w.quizData.Questions, q.Category = c ∧ q.Module = m) ∧
        (result.getD c []).Nodup ∧
        listings result c m = (result.getD c []).count m := by
  obtain ⟨modules, result, _, hwf, hpairs, hr, _, hkeys, hget⟩ := getAvailableModules_getD ρ w
  refine ⟨result, hr, ?_⟩
  intro c m
  have hperm : (result.getD c []).Perm (modules.getD c GoMap.nil).keys := by
    rw [hget c]
    exact ρ.perm _
  have hnd : (result.getD c []).Nodup := hperm.nodup_iff.2 (hwf.2.2 c)
  refine ⟨?_, hnd, listings_eq_count result hkeys c m⟩
  rw [hperm.mem_iff, hpairs c m]

theorem removeQuestion_valid (w : World) (k : Nat) (hk : Sscanf (enteredLine w 0) = (k : Int))
    (h1 : 1 ≤ k) (h2 : k ≤ w.quizData.Questions.length) :
    (removeQuestion w).quizData.Questions = w.quizData.Questions.eraseIdx (k - 1) := by
  rw [← readInput_fst] at hk
  have hlen : ¬ w.quizData.Questions.length = 0 := by omega
  unfold removeQuestion
  simp only [if_neg hlen, hk, (readInput_frame _).1]
  have hz : ¬ ((k : Int) = 0) := by omega
  have hr : ¬ ((k : Int) < 1 ∨ (k : Int) > (w.quizData.Questions.length : Int)) := by omega
  rw [if_neg hz, if_neg hr]
  have e1 : ((k : Int) - 1).toNat = k - 1 := by omega
  have e2 : (k : Int).toNat = k := by omega
  simp only [e1, e2, readInput, emit, saveQuestions]
  rw [List.eraseIdx_eq_take_drop_succ, show k - 1 + 1 = k by omega]

/-! ## Claims on the derived module view -/

/-- C13: for every question list and every iteration order of the maps,
    `getAvailableModules` returns a result that lists module `m` under category `c` if
    and only if at least one question has category `c` and module `m`, and that lists
    each such pair exactly once (and a pair without question not at all);
    consequently, when `removeQuestion` removes the last question of a pair, the
    result computed afterwards no longer lists the pair, which was listed before. -/
theorem getAvailableModules_lists_exactly (ρ : RangeOrder) (w : World) :
    ∃ result, getAvailableModules ρ w = some result ∧
      (∀ c m,
        (m ∈ result.getD c [] ↔
          ∃ q ∈ w.quizData.Questions, q.Category = c ∧ q.Module = m) ∧
        ((∃ q ∈ w.quizData.Questions, q.Category = c ∧ q.Module = m) →
          listings result c m = 1 ∧ (result.getD c []).count m = 1) ∧
        ((¬ ∃ q ∈ w.quizData.Questions, q.Category = c ∧ q.Module = m) →
          listings result c m = 0)) ∧
      (∀ (ρ' : RangeOrder) (k : Nat) (q : Question),
        Sscanf (enteredLine w 0) = (k : Int) → 1 ≤ k →
        w.quizData.Questions[k - 1]? = some q →
        (∀ q' ∈ w.quizData.Questions.eraseIdx (k - 1),
          ¬ (q'.Category = q.Category ∧ q'.Module = q.Module)) →
        q.Module ∈ result.getD q.Category [] ∧
        (removeQuestion w).quizData.Questions = w.quizData.Questions.eraseIdx (k - 1) ∧
        ∃ result', getAvailableModules ρ' (removeQuestion w) = some result' ∧
          q.Module ∉ result'.getD q.Category [] ∧
          listings result' q.Category q.Module = 0) := by
  obtain ⟨result, hr, hex⟩ := getAvailableModules_exact ρ w
  refine ⟨result, hr, ?_, ?_⟩
  · intro c m
    obtain ⟨hiff, hnd, hcount⟩ := hex c m
    refine ⟨hiff, ?_, ?_⟩
    · intro hq
      have hm := hiff.2 hq
      have h1 := List.count_eq_one_of_mem hnd hm
      exact ⟨by rw [hcount, h1], h1⟩
    · intro hq
      have hm : m ∉ result.getD c [] := fun h => hq (hiff.1 h)
      rw [hcount, List.count_eq_zero_of_not_mem hm]
  · intro ρ' k q hk h1 hget hlast
    have hlt : k - 1 < w.quizData.Questions.length := by
      by_contra hge
      rw [List.getElem?_eq_none (by omega)] at hget
      exact Option.noConfusion hget
    have hmemq : q ∈ w.quizData.Questions := List.getElem?_mem hget
    have hrem := removeQuestion_valid w k hk h1 (by omega)
    obtain ⟨result', hr', hex'⟩ := getAvailableModules_exact ρ' (removeQuestion w)
    obtain ⟨hiff', _, hcount'⟩ := hex' q.Category q.Module
    have hnot : q.Module ∉ result'.getD q.Category [] := by
      intro hm
      obtain ⟨q', hq', hc, hmod⟩ := hiff'.1 hm
      rw [hrem] at hq'
      exact hlast q' hq' ⟨hc, hmod⟩
    refine ⟨((hex q.Category q.Module).1).2 ⟨q, hmemq, rfl, rfl⟩, hrem, result', hr', hnot, ?_⟩
    rw [hcount', List.count_eq_zero_of_not_mem hnot]

/-- C13 on the bank of three questions, where question number 2, the only one of
    Cisco/CCNA, is removed. -/
theorem getAvailableModules_lists_exactly_witness :
    Sscanf (enteredLine (lastQuestionSession "2") 0) = ((2 : Nat) : Int) ∧
    ((lastQuestionSession "2").quizData.Questions[2 - 1]?).map Question.ID = some "ccna1" ∧
    (∃ result, getAvailableModules RangeOrder.stored (lastQuestionSession "2") = some result ∧
      ("CCNA" ∈ result.getD "Cisco" [] ↔
        ∃ q ∈ (lastQuestionSession "2").quizData.Questions,
          q.Category = "Cisco" ∧ q.Module = "CCNA")) ∧
    (∃ result', getAvailableModules RangeOrder.stored
        (removeQuestion (lastQuestionSession "2")) = some result' ∧
      "CCNA" ∉ result'.getD "Cisco" []) := by
  refine ⟨by decide, by decide, ?_, ?_⟩
  · obtain ⟨result, hr, h, _⟩ :=
      getAvailableModules_lists_exactly RangeOrder.stored (lastQuestionSession "2")
    exact ⟨result, hr, (h "Cisco" "CCNA").1⟩
  · obtain ⟨result, _, _, h⟩ :=
      getAvailableModules_lists_exactly RangeOrder.stored (lastQuestionSession "2")
    obtain ⟨_, _, result', hr', hnot, _⟩ := h RangeOrder.stored 2
      { ID := "ccna1", Question := "Second?", Options := ["A", "B", "C", "D"], Answer := 2,
        Category := "Cisco", Module := "CCNA" }
      (by decide) (by decide) (by decide) (by decide)
    exact ⟨result', hr', hnot⟩

/-! ## Claims on question ids -/

/-- C14 fails on the code: two questions added while the clock reads two instants of
    the same second both receive the id q1700000000, so a question list with distinct
    ids (here the empty one) does not keep distinct ids. -/
theorem same_second_adds_share_an_id :
    questionIDsDistinct sameSecondSession ∧
    sameSecondSession.clock = [1700000000100000000, 1700000000900000000] ∧
    questionIDs (addNewQuestion sameSecondSession) = ["q1700000000"] ∧
    questionIDs (addNewQuestion (addNewQuestion sameSecondSession)) =
      ["q1700000000", "q1700000000"] ∧
    ¬ questionIDsDistinct (addNewQuestion (addNewQuestion sameSecondSession)) := by
  decide

end Quiz
